import Mathlib

/-!
# Verification of the parsedBible repository

Shallow embedding of the two programs of the repository:

* `fetch_bible.py`  — verse extraction from chapter markup (`parse_chapter_html`),
  chapter-range resolution (`parse_range`), per-chapter persistence (`grab`) and
  the per-book orchestration (`download_book`);
* `convert_bible.py` — the per-version aggregator (`parse_version`).

Python strings are modelled as `List Char` (`PyStr`).  Python's string
operations (`strip`, `split`, `lower`, `isdigit`, `int(...)`, ...) are
translated on the ASCII range, which covers the repository's data; Unicode
character-class refinements of `str.isdigit`/`str.strip` are outside the model.
The BeautifulSoup HTML parse tree is taken as the input boundary: the markup
is given as a tree of `Node`s (tags with class lists and children, and text
nodes), mirroring the object that `BeautifulSoup(html_text, "html.parser")`
hands to the extraction loop.
-/

set_option maxHeartbeats 1000000

namespace ParsedBible

/-- Python strings, modelled as lists of characters. -/
abbrev PyStr := List Char

/-- Literal helper: a Lean string literal as a `PyStr`. -/
def str (s : String) : PyStr := s.data

/-- Python whitespace (`str.strip` / `str.split` with no argument), ASCII range:
space, tab, newline, carriage return, vertical tab, form feed. -/
def isWs (c : Char) : Bool :=
  c = ' ' ∨ c = '\t' ∨ c = '\n' ∨ c = '\r' ∨ c = '\x0b' ∨ c = '\x0c'

/-- ASCII decimal digit test (the digits `int(...)` accepts in this model). -/
def isDig (c : Char) : Bool := '0' ≤ c ∧ c ≤ '9'

/-- Non-decimal characters of the Unicode `Numeric_Type=Digit` class:
the Latin-1 superscripts `¹ ² ³` (U+00B9, U+00B2, U+00B3) and the
superscript/subscript digits U+2070, U+2074–U+2079 and U+2080–U+2089.
`str.isdigit()` accepts them but `int(...)` raises `ValueError` on them.
(The few remaining `Numeric_Type=Digit` code points and the non-ASCII
`Decimal` digits are outside the model.) -/
def isNonDecDigit (c : Char) : Bool :=
  c.toNat = 178 ∨ c.toNat = 179 ∨ c.toNat = 185 ∨ c.toNat = 8304 ∨
  (8308 ≤ c.toNat ∧ c.toNat ≤ 8313) ∨ (8320 ≤ c.toNat ∧ c.toNat ≤ 8329)

/-- A character `str.isdigit()` accepts: a decimal digit or a non-decimal
digit-class character. -/
def isPyDigit (c : Char) : Bool := isDig c || isNonDecDigit c

/-- Value of an ASCII digit character. -/
def dVal (c : Char) : Nat := c.toNat - 48

/-- Python `str.strip()`: drop leading and trailing whitespace. -/
def pyStrip (l : PyStr) : PyStr := (l.dropWhile isWs).rdropWhile isWs

/-- Python `str.isdigit()`: non-empty and every character in the digit
class — which includes non-decimal digits such as `'²'` that `int(...)`
rejects. -/
def pyIsdigit (l : PyStr) : Bool := !l.isEmpty && l.all isPyDigit

/-- Python `str.lower()` on the ASCII range. -/
def pyLower (l : PyStr) : PyStr :=
  l.map (fun c => if 'A' ≤ c ∧ c ≤ 'Z' then Char.ofNat (c.toNat + 32) else c)

/-- Python `str.upper()` on the ASCII range. -/
def pyUpper (l : PyStr) : PyStr :=
  l.map (fun c => if 'a' ≤ c ∧ c ≤ 'z' then Char.ofNat (c.toNat - 32) else c)

/-- Python `str.replace(a, b)` for single characters. -/
def replaceCh (a b : Char) (l : PyStr) : PyStr :=
  l.map (fun c => if c = a then b else c)

/-- Chunks of a string delimited by whitespace, empties included
(helper for `pySplitWs`). -/
def wsChunks : List Char → List PyStr
  | [] => [[]]
  | c :: rest =>
    let acc := wsChunks rest
    if isWs c then [] :: acc
    else
      match acc with
      | [] => [[c]]
      | t :: ts => (c :: t) :: ts

/-- Python `str.split()` (no separator): split on runs of whitespace,
discarding empty tokens. -/
def pySplitWs (l : PyStr) : List PyStr := (wsChunks l).filter (fun t => !t.isEmpty)

/-- Python `" ".join(tokens)`. -/
def joinSp : List PyStr → PyStr
  | [] => []
  | [t] => t
  | t :: ts => t ++ ' ' :: joinSp ts

/-- Python `str.split(sep)` for a single-character separator:
all chunks kept, empties included. -/
def splitChunks (sep : Char) : List Char → List PyStr
  | [] => [[]]
  | c :: rest =>
    let acc := splitChunks sep rest
    if c = sep then [] :: acc
    else
      match acc with
      | [] => [[c]]
      | t :: ts => (c :: t) :: ts

/-- Python code-point comparison `s < t` on strings. -/
def strLt : PyStr → PyStr → Bool
  | [], [] => false
  | [], _ :: _ => true
  | _ :: _, [] => false
  | a :: as, b :: bs => if a.toNat < b.toNat then true
      else if b.toNat < a.toNat then false
      else strLt as bs

/-- Insert into a sorted list after all elements not strictly greater
(helper for the stable `pySort`). -/
def insertSorted (lt : α → α → Bool) : List α → α → List α
  | [], a => [a]
  | b :: rest, a => if lt a b then a :: b :: rest else b :: insertSorted lt rest a

/-- Python `sorted(...)`: a stable sort (insertion sort, inserting each
element after existing equal elements). -/
def pySort (lt : α → α → Bool) (l : List α) : List α := l.foldl (insertSorted lt) []

/-- Python `str(n)` for a non-negative integer. -/
def natStr (n : Nat) : PyStr := (toString n).data

/-- Numeric value of a decimal digit string (Python `int(...)` on a string of
digits, leading zeros permitted). -/
def strToNat (l : PyStr) : Nat := l.foldl (fun a c => a * 10 + dVal c) 0

/-- Digit part of Python `int(...)`: decimal digits with optional single
underscores between digit groups, accumulated left to right. -/
def digitsLoop (acc : Nat) : List Char → Option Nat
  | [] => some acc
  | c :: rest =>
      if c = '_' then
        match rest with
        | [] => none
        | c2 :: rest2 => if isDig c2 then digitsLoop (acc * 10 + dVal c2) rest2 else none
      else if isDig c then digitsLoop (acc * 10 + dVal c) rest else none

/-- Unsigned part of Python `int(...)`: at least one digit, underscore
separators allowed between digits. -/
def pyIntNat : List Char → Option Nat
  | [] => none
  | c :: rest => if isDig c then digitsLoop (dVal c) rest else none

/-- Python `int(s)` on a string: surrounding whitespace stripped, optional
sign, decimal digits (ASCII), underscore group separators; `none` models the
`ValueError` raised on anything else. -/
def pyInt (s : PyStr) : Option Int :=
  match pyStrip s with
  | '+' :: rest => (pyIntNat rest).map Int.ofNat
  | '-' :: rest => (pyIntNat rest).map (fun n => -(n : Int))
  | t => (pyIntNat t).map Int.ofNat

/-- Entity table for `html.unescape`: the basic named entities. -/
def entityTable : List (PyStr × PyStr) :=
  [(str "amp", str "&"), (str "lt", str "<"), (str "gt", str ">"),
   (str "quot", str "\""), (str "apos", str "'"), (str "nbsp", [' '])]

/-- ASCII letter test (entity names). -/
def isAl (c : Char) : Bool := ('a' ≤ c ∧ c ≤ 'z') ∨ ('A' ≤ c ∧ c ≤ 'Z')

/-- Recognize one entity reference after an `&`: returns the replacement and
the remaining input, for semicolon-terminated named entities from the basic
table and decimal numeric character references. -/
def entityAt (rest : List Char) : Option (PyStr × List Char) :=
  match rest with
  | '#' :: rest2 =>
      match rest2.dropWhile isDig with
      | ';' :: tail =>
          if (rest2.takeWhile isDig).isEmpty then none
          else some ([Char.ofNat (strToNat (rest2.takeWhile isDig))], tail)
      | _ => none
  | _ =>
      match rest.dropWhile isAl with
      | ';' :: tail =>
          match List.lookup (rest.takeWhile isAl) entityTable with
          | some repl => some (repl, tail)
          | none => none
      | _ => none

/-- `html.unescape`, fuel-indexed helper (the fuel only bounds recursion; an
entity step always consumes at least one character, so fuel = input length
never runs out). -/
def pyUnescapeFuel : Nat → List Char → List Char
  | 0, l => l
  | _ + 1, [] => []
  | f + 1, '&' :: rest =>
      match entityAt rest with
      | some (repl, tail) => repl ++ pyUnescapeFuel f tail
      | none => '&' :: pyUnescapeFuel f rest
  | f + 1, c :: rest => c :: pyUnescapeFuel f rest

/-- `html.unescape`, modelled for semicolon-terminated entities: named
entities from the basic table and decimal numeric character references;
unrecognized ampersand sequences are left verbatim, and strings without
`&` are unchanged (the only case the theorems below exercise). -/
def pyUnescape (l : List Char) : List Char := pyUnescapeFuel l.length l

/-! ## Markup tree model (the BeautifulSoup boundary)

A `Node` is either a tag with its name, its `class` attribute values and its
children, or a `NavigableString` text node.  The soup handed to
`parse_chapter_html` is the list of root nodes of the parsed document. -/

inductive Node where
  | tag : PyStr → List PyStr → List Node → Node
  | text : PyStr → Node
deriving Repr

mutual
/-- All descendant text strings of a node, in document order
(`NavigableString`s below the node, the node's own text for a text node). -/
def nodeTexts : Node → List PyStr
  | .text s => [s]
  | .tag _ _ children => listTexts children
def listTexts : List Node → List PyStr
  | [] => []
  | n :: rest => nodeTexts n ++ listTexts rest
end

/-- BeautifulSoup `get_text(strip=True)` over a list of children: every
descendant string stripped, concatenated. -/
def getTextStrip (children : List Node) : PyStr :=
  ((listTexts children).map pyStrip).flatten

/-- `div` node with a class whose value starts with `passage-content`
(the `soup.find("div", class_=re.compile(r"^passage-content"))` test). -/
def isContainer : Node → Bool
  | .tag name classes _ =>
      name = str "div" ∧ classes.any (fun c => (str "passage-content").isPrefixOf c)
  | .text _ => false

mutual
/-- First matching container in document (preorder) traversal of a node. -/
def findContainerNode : Node → Option Node
  | .text _ => none
  | .tag name classes children =>
      if isContainer (.tag name classes children) then some (.tag name classes children)
      else findContainerList children
/-- First matching container in a forest. -/
def findContainerList : List Node → Option Node
  | [] => none
  | n :: rest =>
      match findContainerNode n with
      | some c => some c
      | none => findContainerList rest
end

/-- Noise nodes removed before traversal: `sup`/`div`/`h3` tags carrying a
`footnote`, `footnotes`, `crossreference` or `crossrefs` class. -/
def isNoise (n : Node) : Bool :=
  match n with
  | .tag name classes _ =>
      (name = str "sup" ∨ name = str "div" ∨ name = str "h3") ∧
        classes.any (fun c =>
          c = str "footnote" ∨ c = str "footnotes" ∨
          c = str "crossreference" ∨ c = str "crossrefs")
  | .text _ => false

/-- `h3` tag test (all `h3` titles are removed in a second pass). -/
def isH3 (n : Node) : Bool :=
  match n with
  | .tag name _ _ => name = str "h3"
  | .text _ => false

mutual
/-- Remove every node satisfying `p` (and its whole subtree) from a forest,
modelling `element.decompose()` over all `find_all` matches. -/
def removeNodes (p : Node → Bool) : List Node → List Node
  | [] => []
  | n :: rest =>
      if p n then removeNodes p rest
      else keepNode p n :: removeNodes p rest
/-- Remove every node satisfying `p` inside one kept node. -/
def keepNode (p : Node → Bool) : Node → Node
  | .text s => .text s
  | .tag name classes children => .tag name classes (removeNodes p children)
end

mutual
/-- `container.descendants`: every node strictly below, in document order
(each tag followed by its own descendants). -/
def descendantsNode : Node → List Node
  | .text s => [.text s]
  | .tag name classes children => .tag name classes children :: descendantsList children
def descendantsList : List Node → List Node
  | [] => []
  | n :: rest => descendantsNode n ++ descendantsList rest
end

/-- The cleaned descendant stream the extraction loop iterates over, for a
found container node: strip footnote/crossreference noise, then all `h3`
titles, then take `container.descendants`. -/
def containerNodes : Node → List Node
  | .tag _ _ children => descendantsList (removeNodes isH3 (removeNodes isNoise children))
  | .text _ => []

/-! ## The verse-extraction state machine (`parse_chapter_html`) -/

/-- Mutable traversal state of the extraction loop: the accumulator map
`verses_data` (insertion-ordered association list from verse-number string to
the list of accumulated text parts), `current_verse_num`, and the one-shot
`ignore_next_text_node_if_matches_num` flag. -/
structure TState where
  data : List (PyStr × List PyStr)
  current : Option PyStr
  ignoreFlag : Bool
deriving Repr

/-- Initial traversal state. -/
def initState : TState := { data := [], current := none, ignoreFlag := false }

/-- `verses_data[current_verse_num] = []` for an unseen number: append the
key at the end (Python dict insertion order). -/
def addKey (k : PyStr) (data : List (PyStr × List PyStr)) : List (PyStr × List PyStr) :=
  match List.lookup k data with
  | some _ => data
  | none => data ++ [(k, [])]

/-- `verses_data[k].append(x)` (no-op on a missing key; the traversal
invariant proved below shows the key is always present when used). -/
def appendVal (k : PyStr) (x : PyStr) (data : List (PyStr × List PyStr)) :
    List (PyStr × List PyStr) :=
  data.map (fun p => if p.1 = k then (p.1, p.2 ++ [x]) else p)

/-- The verse-marker test of the loop, returning the verse number started by
this tag: a `sup.versenum` whose stripped text is all digits starts that
number; a `span.chapternum` whose stripped text is all digits starts verse
`"1"`. -/
def markerNum (name : PyStr) (classes : List PyStr) (children : List Node) : Option PyStr :=
  if name = str "sup" ∧ classes.contains (str "versenum") then
    (if pyIsdigit (getTextStrip children) then some (getTextStrip children) else none)
  else if name = str "span" ∧ classes.contains (str "chapternum") ∧
      pyIsdigit (getTextStrip children) then
    some (str "1")
  else none

/-- One step of the extraction loop on a single descendant node. -/
def stepNode (st : TState) (n : Node) : TState :=
  match n with
  | .tag name classes children =>
      match markerNum name classes children with
      | some num =>
          { data := addKey num st.data, current := some num, ignoreFlag := true }
      | none =>
          match st.current with
          | some v =>
              if name = str "br" then
                let cur := (List.lookup v st.data).getD []
                let data' := if cur.isEmpty ∨ cur.getLast? ≠ some (str "\n")
                  then appendVal v (str "\n") st.data else st.data
                { st with data := data', ignoreFlag := false }
              else if name = str "span" ∧ (getTextStrip children).isEmpty then
                { st with ignoreFlag := false }
              else st
          | none =>
              if name = str "span" ∧ (getTextStrip children).isEmpty then
                { st with ignoreFlag := false }
              else st
  | .text s =>
      match st.current with
      | none => st
      | some v =>
          if st.ignoreFlag ∧ pyStrip s = v then { st with ignoreFlag := false }
          else
            { st with data := appendVal v s st.data,
                      ignoreFlag := if !(pyStrip s).isEmpty then false else st.ignoreFlag }

/-- One record of the output `verses` array. -/
structure Verse where
  verse : PyStr
  text : PyStr
  readableText : PyStr
deriving Repr, DecidableEq

/-- The chapter record returned by `parse_chapter_html`. -/
structure ChapterOut where
  book : PyStr
  rev : PyStr
  chapter : PyStr
  verses : List Verse
deriving Repr, DecidableEq

/-- `max(map(int, verses_data.keys()))`, as the code computes it: `int` is
applied to each key in insertion order and the running maximum taken;
`none` models the `ValueError` that `int(...)` raises on the first key that
passes `str.isdigit()` through a non-decimal digit (e.g. `"²"`). -/
def maxKeyInt (data : List (PyStr × List PyStr)) : Option Int :=
  match data with
  | [] => none
  | p :: rest => do
      let first ← pyInt p.1
      rest.foldlM (fun a q => (pyInt q.1).map (fun n => Max.max a n)) first

/-- Statement-level view of the maximum verse number: the decimal value of
the largest key.  Whenever `maxKeyInt` succeeds this agrees with it (proved
in `maxKeyInt_eq_maxKey` below); it is the quantity the dense-numbering
statements range over. -/
def maxKey (data : List (PyStr × List PyStr)) : Nat :=
  data.foldl (fun a p => Nat.max a (strToNat p.1)) 0

/-- `readable_text_normalized`: newlines and tabs to spaces, whitespace runs
collapsed by `" ".join(s.split())`, then `strip()`. -/
def normalizeWs (raw : PyStr) : PyStr :=
  pyStrip (joinSp (pySplitWs (replaceCh '\t' ' ' (replaceCh '\n' ' ' raw))))

/-- The output-formatting loop: when the accumulator map is non-empty,
compute `max(map(int, keys))` — which raises `ValueError` on a key that
passed `str.isdigit()` through a non-decimal digit — then emit one record
per number from 1 to that maximum, gap-filling missing numbers with empty
accumulators. -/
def formatVerses (data : List (PyStr × List PyStr)) : Except PyStr (List Verse) :=
  match data with
  | [] => .ok []
  | _ =>
      match maxKeyInt data with
      | none => .error (str "invalid literal for int() with base 10")
      | some mx =>
          .ok ((List.range' 1 mx.toNat).map (fun i =>
            let content := (List.lookup (natStr i) data).getD []
            let raw := pyUnescape content.flatten
            { verse := natStr i
              text := pyStrip raw
              readableText := normalizeWs raw }))

/-- `parse_chapter_html(html_text, book_code, version, chapter)`, from the
parsed soup onward (the BeautifulSoup HTML parse of the raw text is the
input boundary).  Both `.error` cases are `ValueError`s of the source: the
`ValueError("passage-content not found")` raised when the container is
absent, and the `ValueError` from `int(...)` in the formatting loop when a
non-decimal digit key was accumulated. -/
def parse_chapter_html (soup : List Node) (book_code version : PyStr) (chapter : Nat) :
    Except PyStr ChapterOut :=
  match findContainerList soup with
  | none => .error (str "passage-content not found")
  | some container =>
      let finalState := (containerNodes container).foldl stepNode initState
      match formatVerses finalState.data with
      | .error e => .error e
      | .ok verses =>
          .ok { book := pyUpper book_code
                rev := version
                chapter := natStr chapter
                verses := verses }

/-! ## Chapter-range resolution (`parse_range`) -/

/-- `range(a, b + 1)` over integers. -/
def intRange (a b : Int) : List Int :=
  (List.range' 0 (b + 1 - a).toNat).map (fun i => a + (i : Int))

/-- Processing of one comma-separated token of the chapter spec: strip,
skip if empty; a token containing `-` must split into exactly two
`int()`-parseable pieces with `a <= b` to contribute `range(a, b+1)`
(otherwise it is reported and skipped); any other token contributes its
`int()` value or is reported and skipped. -/
def processPart (p0 : PyStr) : List Int :=
  let p := pyStrip p0
  if p.isEmpty then []
  else if p.contains '-' then
    match splitChunks '-' p with
    | [x, y] =>
        match pyInt x, pyInt y with
        | some a, some b => if a ≤ b then intRange a b else []
        | _, _ => []
    | _ => []
  else
    match pyInt p with
    | some n => [n]
    | none => []

/-- `parse_range(arg, max_chaps)`: `"all"` (case-insensitively) yields
`[1 .. max_chaps]`; otherwise the comma-separated tokens are processed and
the result filtered to `1 <= n <= max_chaps`. -/
def parse_range (arg : PyStr) (max_chaps : Nat) : List Int :=
  if pyLower arg = str "all" then (List.range' 1 max_chaps).map Int.ofNat
  else
    ((splitChunks ',' arg).flatMap processPart).filter
      (fun n => decide (1 ≤ n ∧ n ≤ (max_chaps : Int)))

/-! ## Persistence and orchestration (`grab`, `download_book`) -/

/-- `CHAPS`: chapters per book, transcribed from `fetch_bible.py`. -/
def CHAPS : List (PyStr × Nat) :=
  [(str "gen", 50), (str "exo", 40), (str "lev", 27), (str "num", 36), (str "deu", 34),
   (str "jos", 24), (str "jdg", 21), (str "rut", 4), (str "1sa", 31), (str "2sa", 24),
   (str "1ki", 22), (str "2ki", 25), (str "1ch", 29), (str "2ch", 36), (str "ezr", 10),
   (str "neh", 13), (str "est", 10), (str "job", 42), (str "psa", 150), (str "pro", 31),
   (str "ecc", 12), (str "sng", 8), (str "isa", 66), (str "jer", 52), (str "lam", 5),
   (str "ezk", 48), (str "dan", 12), (str "hos", 14), (str "jol", 3), (str "amo", 9),
   (str "oba", 1), (str "jon", 4), (str "mic", 7), (str "nam", 3), (str "hab", 3),
   (str "zep", 3), (str "hag", 2), (str "zec", 14), (str "mal", 4), (str "mat", 28),
   (str "mrk", 16), (str "luk", 24), (str "jhn", 21), (str "act", 28), (str "rom", 16),
   (str "1co", 16), (str "2co", 13), (str "gal", 6), (str "eph", 6), (str "php", 4),
   (str "col", 4), (str "1th", 5), (str "2th", 3), (str "1ti", 6), (str "2ti", 4),
   (str "tit", 3), (str "phm", 1), (str "heb", 13), (str "jas", 5), (str "1pe", 5),
   (str "2pe", 3), (str "1jn", 5), (str "2jn", 1), (str "3jn", 1), (str "jud", 1),
   (str "rev", 22)]

/-- `f"{chap:03}"`: the chapter number zero-padded to at least three digits. -/
def natPad3 (n : Nat) : PyStr :=
  List.replicate (3 - (natStr n).length) '0' ++ natStr n

/-- Result of one `grab` call: the Python return value (`chap` on success,
`None` otherwise) and the files written (name and record). -/
structure GrabOut where
  ret : Option Nat
  files : List (PyStr × ChapterOut)
deriving Repr

/-- `grab`: fetch one chapter (the fetch outcome — raw markup soup or a
network/HTTP/timeout failure — is an input), extract it, skip without saving
on any failure or on an empty-verse result, and otherwise save one JSON file
named `{book_code}.{chap:03}.json`. -/
def grab (fetched : Except Unit (List Node)) (version book_code : PyStr) (chap : Nat) :
    GrabOut :=
  match fetched with
  | .error _ => { ret := none, files := [] }
  | .ok soup =>
      match parse_chapter_html soup book_code version chap with
      | .error _ => { ret := none, files := [] }
      | .ok data =>
          if data.verses.isEmpty then { ret := none, files := [] }
          else { ret := some chap
                 files := [(book_code ++ str "." ++ natPad3 chap ++ str ".json", data)] }

/-- Observable outcome of one `download_book` call: the Python return value
(the function body never returns a value, so this is always `none`), the
`successful/requested` counts printed at the end (`none` when the book was
skipped before downloading), and all files saved by the `grab` tasks. -/
structure BookDl where
  returnValue : Option Nat
  reported : Option (Nat × Nat)
  saved : List (PyStr × ChapterOut)
deriving Repr

/-- `download_book`: look up the chapter count, resolve the chapter spec,
skip the book when either fails, then run `grab` for every chapter (the
per-chapter fetch outcomes are an input; the URL construction, progress bar
and directory creation are I/O outside the model) and count the successful
ones.  The semaphore-bounded concurrent completion order does not affect the
set of files saved or the count. -/
def download_book (fetchOutcome : Nat → Except Unit (List Node))
    (version book_code : PyStr) (chapters : PyStr) : BookDl :=
  match List.lookup book_code CHAPS with
  | none => { returnValue := none, reported := none, saved := [] }
  | some max_chaps =>
      let chapter_list := parse_range chapters max_chaps
      if chapter_list.isEmpty then { returnValue := none, reported := none, saved := [] }
      else
        let results := chapter_list.map
          (fun c => grab (fetchOutcome c.toNat) (pyUpper version) book_code c.toNat)
        { returnValue := none
          reported := some ((results.filter (fun g => g.ret.isSome)).length, results.length)
          saved := results.flatMap (fun g => g.files) }

/-! ## The aggregator (`convert_bible.py`)

`convert_bible.py` never imports `sys`, yet every warning/skip path inside
`parse_version` executes `print(..., file=sys.stderr)`.  In Python that
raises `NameError: name 'sys' is not defined`, which propagates out of
`parse_version`; the embedding models those paths with `ConvErr.nameError`.
The `int(...)` conversion of a non-numeric verse identifier raises a
`ValueError` that no handler in `parse_version` catches
(`ConvErr.valueError`). -/

/-- Exceptions escaping `parse_version`. -/
inductive ConvErr where
  | nameError
  | valueError
deriving Repr, DecidableEq

/-- `BOOKS`: abbreviation to display name, transcribed from `convert_bible.py`. -/
def BOOKS : List (PyStr × PyStr) :=
  [(str "gen", str "Genesis"), (str "exo", str "Exodus"), (str "lev", str "Leviticus"),
   (str "num", str "Numbers"), (str "deu", str "Deuteronomy"), (str "jos", str "Joshua"),
   (str "jdg", str "Judges"), (str "rut", str "Ruth"), (str "1sa", str "1 Samuel"),
   (str "2sa", str "2 Samuel"), (str "1ki", str "1 Kings"), (str "2ki", str "2 Kings"),
   (str "1ch", str "1 Chronicles"), (str "2ch", str "2 Chronicles"), (str "ezr", str "Ezra"),
   (str "neh", str "Nehemiah"), (str "est", str "Esther"), (str "job", str "Job"),
   (str "psa", str "Psalms"), (str "pro", str "Proverbs"), (str "ecc", str "Ecclesiastes"),
   (str "sng", str "Song of Solomon"), (str "isa", str "Isaiah"), (str "jer", str "Jeremiah"),
   (str "lam", str "Lamentations"), (str "ezk", str "Ezekiel"), (str "dan", str "Daniel"),
   (str "hos", str "Hosea"), (str "jol", str "Joel"), (str "amo", str "Amos"),
   (str "oba", str "Obadiah"), (str "jon", str "Jonah"), (str "mic", str "Micah"),
   (str "nam", str "Nahum"), (str "hab", str "Habakkuk"), (str "zep", str "Zephaniah"),
   (str "hag", str "Haggai"), (str "zec", str "Zechariah"), (str "mal", str "Malachi"),
   (str "mat", str "Matthew"), (str "mrk", str "Mark"), (str "luk", str "Luke"),
   (str "jhn", str "John"), (str "act", str "Acts"), (str "rom", str "Romans"),
   (str "1co", str "1 Corinthians"), (str "2co", str "2 Corinthians"),
   (str "gal", str "Galatians"), (str "eph", str "Ephesians"), (str "php", str "Philippians"),
   (str "col", str "Colossians"), (str "1th", str "1 Thessalonians"),
   (str "2th", str "2 Thessalonians"), (str "1ti", str "1 Timothy"),
   (str "2ti", str "2 Timothy"), (str "tit", str "Titus"), (str "phm", str "Philemon"),
   (str "heb", str "Hebrews"), (str "jas", str "James"), (str "1pe", str "1 Peter"),
   (str "2pe", str "2 Peter"), (str "1jn", str "1 John"), (str "2jn", str "2 John"),
   (str "3jn", str "3 John"), (str "jud", str "Jude"), (str "rev", str "Revelation")]

/-- Python `str.capitalize()` on the ASCII range. -/
def pyCapitalize (s : PyStr) : PyStr :=
  match s with
  | [] => []
  | c :: rest => (if 'a' ≤ c ∧ c ≤ 'z' then Char.ofNat (c.toNat - 32) else c) :: pyLower rest

/-- `BOOKS.get(abbr, abbr.capitalize())`. -/
def bookDisplayName (abbr : PyStr) : PyStr :=
  (List.lookup abbr BOOKS).getD (pyCapitalize abbr)

/-- `re.match(r"(\d{2})_([a-z0-9]+)", folder_name)` (a prefix match): two
digits, an underscore and a non-empty run of `[a-z0-9]`, the rest of the
name unconstrained; yields `(order, abbr)`. -/
def matchBookFolder (name : PyStr) : Option (Nat × PyStr) :=
  match name with
  | d1 :: d2 :: '_' :: rest =>
      if isDig d1 ∧ isDig d2 then
        let abbr := rest.takeWhile (fun c => ('a' ≤ c ∧ c ≤ 'z') ∨ isDig c)
        if abbr.isEmpty then none else some (dVal d1 * 10 + dVal d2, abbr)
      else none
  | _ => none

/-- The glob pattern `{abbr}.*.json`: the name is `abbr`, a dot, any
(possibly empty) character run, and `.json`. -/
def globMatch (abbr : PyStr) (name : PyStr) : Bool :=
  (abbr ++ ['.']).isPrefixOf name ∧ (str ".json").isSuffixOf name ∧
    abbr.length + 1 + 5 ≤ name.length

/-- `re.match(rf"{abbr}\.(\d+)\.json", file_name)` (a prefix match) followed
by `int(m2.group(1).lstrip("0") or "0")`: the numeric value of the digit
run between `abbr.` and `.json`. -/
def chapFileNum (abbr : PyStr) (name : PyStr) : Option Nat :=
  if (abbr ++ ['.']).isPrefixOf name then
    let rest := name.drop (abbr.length + 1)
    let digits := rest.takeWhile isDig
    if !digits.isEmpty ∧ (str ".json").isPrefixOf (rest.drop digits.length) then
      some (strToNat digits)
    else none
  else none

/-- One element of a chapter file's `verses` array; `none` fields model
absent JSON keys.  (The fetch path always writes string values, which is
what the model covers.) -/
structure VerseObj where
  verse : Option PyStr
  text : Option PyStr
  readableText : Option PyStr
deriving Repr

/-- A parsed chapter file body: `data.get("verses", [])` reads the `verses`
key, `none` modelling its absence. -/
structure ChapJson where
  verses : Option (List VerseObj)
deriving Repr

/-- An on-disk chapter file: its name and its JSON content, `none`
modelling malformed JSON (`json.loads` raises `JSONDecodeError`). -/
structure ChapFile where
  name : PyStr
  content : Option ChapJson
deriving Repr

/-- An entry of the version directory: name, whether it is a directory, and
its chapter files. -/
structure BookFolder where
  name : PyStr
  isDir : Bool
  files : List ChapFile
deriving Repr

/-- An output verse of the aggregate document. -/
structure VerseOut where
  number : Int
  text : PyStr
deriving Repr, DecidableEq

/-- An output chapter of the aggregate document. -/
structure ChapterAgg where
  number : Nat
  verses : List VerseOut
deriving Repr, DecidableEq

/-- An output book of the aggregate document. -/
structure BookAgg where
  number : Nat
  name : PyStr
  chapters : List ChapterAgg
deriving Repr, DecidableEq

/-- The metadata object of the aggregate document. -/
structure BibleMeta where
  source : PyStr
  revision : PyStr
deriving Repr, DecidableEq

/-- The aggregate per-version document. -/
structure Bible where
  name : PyStr
  metadata : BibleMeta
  books : List BookAgg
deriving Repr, DecidableEq

/-- `clean_text`: strip, then unescape HTML entities. -/
def clean_text (raw : PyStr) : PyStr := pyUnescape (pyStrip raw)

/-- One element of the verse list comprehension:
`{"number": int(v["verse"]), "text": clean_text(v.get("readableText") or v["text"])}`.
A missing `verse` or `text` key raises `KeyError`, which the `except
KeyError` handler turns into `NameError` by printing to the unbound `sys`;
a non-numeric `verse` value raises an uncaught `ValueError`.  The `or`
falls back to `v["text"]` whenever `readableText` is absent *or falsy*
(the empty string). -/
def buildVerse (v : VerseObj) : Except ConvErr VerseOut :=
  match v.verse with
  | none => .error .nameError
  | some vs =>
      match pyInt vs with
      | none => .error .valueError
      | some n =>
          match (match v.readableText with
                 | some r => if r.isEmpty then v.text else some r
                 | none => v.text) with
          | none => .error .nameError
          | some t => .ok { number := n, text := clean_text t }

/-- Process one chapter file inside the fold over a book's sorted files:
non-matching names are skipped; malformed JSON, a bad verse element and the
zero-verse warning path abort `parse_version` (see `ConvErr`). -/
def processFile (abbr : PyStr) (chs : List ChapterAgg) (jf : ChapFile) :
    Except ConvErr (List ChapterAgg) :=
  match chapFileNum abbr jf.name with
  | none => pure chs
  | some chapNum =>
      match jf.content with
      | none => throw ConvErr.nameError
      | some dataJ => do
          let verses ← (dataJ.verses.getD []).mapM buildVerse
          if verses.isEmpty then throw ConvErr.nameError
          else pure (chs ++ [{ number := chapNum, verses := verses }])

/-- Process one entry of the sorted version directory: non-directories and
non-matching folder names are skipped; a book ending with zero chapters
hits the warning print and aborts (see `ConvErr`). -/
def processFolder (books : List BookAgg) (folder : BookFolder) :
    Except ConvErr (List BookAgg) :=
  if !folder.isDir then pure books
  else
    match matchBookFolder folder.name with
    | none => pure books
    | some (order, abbr) => do
        let files := pySort (fun a b => strLt a.name b.name)
          (folder.files.filter (fun f => globMatch abbr f.name))
        let chapters ← files.foldlM (processFile abbr) []
        if chapters.isEmpty then throw ConvErr.nameError
        else pure (books ++ [{ number := order, name := bookDisplayName abbr,
                               chapters := chapters }])

/-- `parse_version(version_dir)`: walk the sorted directory entries, build
the per-book chapter lists, and sort the books by canonical order
(`bible["books"].sort(key=...)`, a stable sort). -/
def parse_version (vname : PyStr) (entries : List BookFolder) : Except ConvErr Bible := do
  let rev := pyUpper vname
  let books ← (pySort (fun a b => strLt a.name b.name) entries).foldlM processFolder []
  pure { name := str "Bible " ++ rev
         metadata := { source := str "parsedBible repo", revision := rev }
         books := pySort (fun a b => a.number < b.number) books }

/-! ## Derived views used by the statements -/

/-- The final accumulator map of the extraction loop for a soup (empty when
the container is absent). -/
def extractData (soup : List Node) : List (PyStr × List PyStr) :=
  match findContainerList soup with
  | none => []
  | some c => ((containerNodes c).foldl stepNode initState).data

/-- A descendant node on which the loop's verse-marker test fires. -/
def isMarkerNode : Node → Bool
  | .tag name classes children => (markerNum name classes children).isSome
  | .text _ => false

/-- The traversal invariant of the extraction loop: whenever a current verse
is active, its number is a key of the accumulator map, so the two
`verses_data[current_verse_num]` accesses cannot raise `KeyError`. -/
def stateInv (st : TState) : Prop :=
  ∀ v, st.current = some v → (List.lookup v st.data).isSome = true

/-- Adjacent double space test (a run of two or more consecutive spaces
starts with two adjacent spaces). -/
def hasSpaceRun : List Char → Bool
  | a :: b :: rest => (a == ' ' && b == ' ') || hasSpaceRun (b :: rest)
  | _ => false

/-- Strict chapter-number ascent inside one aggregated book. -/
def ChapsSorted (b : BookAgg) : Prop :=
  List.Pairwise (fun c₁ c₂ => c₁.number < c₂.number) b.chapters

/-- Canonical chapter-file layout for one folder, as the fetch path writes
it: every file is named `abbr.DDD.json` with a three-digit chapter field,
and file names do not repeat. -/
def CanonFolder (folder : BookFolder) : Prop :=
  (∀ f ∈ folder.files, ∃ d : PyStr,
      f.name = (match matchBookFolder folder.name with
                | some (_, abbr) => abbr
                | none => []) ++ '.' :: (d ++ str ".json")
      ∧ d.length = 3 ∧ d.all isDig = true)
  ∧ (folder.files.map (fun f => f.name)).Nodup

/-! ## Concrete inputs used by counterexamples and witnesses -/

/-- Chapter-3 markup: the chapter-number marker (label `3`) followed by body
text, as BibleGateway renders the first verse of a chapter. -/
def soupChap3 : List Node :=
  [.tag (str "div") [str "passage-content"]
    [.tag (str "span") [str "chapternum"] [.text (str "3")],
     .text (str "In the beginning")]]

/-- Markup with verse markers 1 and 3 but no verse 2, and whitespace-laden
verse text. -/
def soupGap : List Node :=
  [.tag (str "div") [str "passage-content"]
    [.tag (str "sup") [str "versenum"] [.text (str "1")],
     .text (str "alpha"),
     .tag (str "sup") [str "versenum"] [.text (str "3")],
     .text (str "  beta\ngamma")]]

/-- Markup whose container holds headings and plain text but no verse
marker at all. -/
def soupNoMarkers : List Node :=
  [.tag (str "div") [str "passage-content"]
    [.tag (str "h3") [] [.text (str "Title")],
     .text (str "prelude text")]]

/-- Markup with no `passage-content` container. -/
def soupNoContainer : List Node :=
  [.tag (str "div") [str "other"] [.text (str "nothing here")]]

/-- Markup whose container holds a verse marker labelled with the Unicode
superscript digit `²`: `str.isdigit()` accepts it, so the loop starts a
verse under the key `"²"`, and `int("²")` then raises `ValueError`. -/
def soupSuper : List Node :=
  [.tag (str "div") [str "passage-content"]
    [.tag (str "sup") [str "versenum"] [.text (str "²")],
     .text (str "text under the bad marker")]]

/-- A fetch oracle returning a one-verse chapter for every chapter number. -/
def fetchOne : Nat → Except Unit (List Node) := fun _ =>
  .ok [.tag (str "div") [str "passage-content"]
        [.tag (str "sup") [str "versenum"] [.text (str "1")],
         .text (str " hello")]]

/-- A well-formed verse element of a chapter file. -/
def vGood : VerseObj := ⟨some (str "1"), some (str "In the beginning"), none⟩

/-- A valid chapter file with one verse. -/
def fGood : ChapFile := ⟨str "gen.001.json", some ⟨some [vGood]⟩⟩

/-- A chapter file whose content is malformed JSON. -/
def fBad : ChapFile := ⟨str "gen.002.json", none⟩

/-- A verse element carrying a present-but-empty `readableText`. -/
def vEmptyReadable : VerseObj := ⟨some (str "1"), some (str "hello"), some []⟩

/-- A verse element with both text fields present and non-empty. -/
def vBoth : VerseObj := ⟨some (str "2"), some (str "raw"), some (str "nice")⟩

/-- The output the aggregator's comprehension builds for `vBoth`. -/
def rBoth : VerseOut := ⟨2, str "nice"⟩

/-- Version layout with chapter files `gen.2.json` and `gen.10.json`
(variable-width digit fields). -/
def entriesVarWidth : List BookFolder :=
  [⟨str "01_gen", true,
    [⟨str "gen.2.json", some ⟨some [vGood]⟩⟩,
     ⟨str "gen.10.json", some ⟨some [vGood]⟩⟩]⟩]

/-- Canonical version layout as the fetcher writes it: zero-padded
three-digit chapter files (listed out of order), two books. -/
def entriesCanon : List BookFolder :=
  [⟨str "01_gen", true,
    [⟨str "gen.002.json", some ⟨some [vGood]⟩⟩,
     ⟨str "gen.001.json", some ⟨some [vGood]⟩⟩]⟩,
   ⟨str "02_exo", true, [⟨str "exo.001.json", some ⟨some [vGood]⟩⟩]⟩]

/-- The aggregate document `parse_version` produces for `entriesCanon`. -/
def bibleCanon : Bible :=
  ⟨str "Bible PDT", ⟨str "parsedBible repo", str "PDT"⟩,
   [⟨1, str "Genesis",
      [⟨1, [⟨1, str "In the beginning"⟩]⟩, ⟨2, [⟨1, str "In the beginning"⟩]⟩]⟩,
    ⟨2, str "Exodus", [⟨1, [⟨1, str "In the beginning"⟩]⟩]⟩]⟩

/-- The chapter record the extractor produces for `soupGap`. -/
def recGap : ChapterOut :=
  ⟨str "GEN", str "NTV", str "2",
   [⟨str "1", str "alpha", str "alpha"⟩,
    ⟨str "2", [], []⟩,
    ⟨str "3", str "beta\ngamma", str "beta gamma"⟩]⟩

/-! ## Shared helper lemmas -/

/-- `splitChunks` always yields at least one chunk. -/
theorem splitChunks_ne_nil (sep : Char) (l : List Char) : splitChunks sep l ≠ [] := by
  cases l with
  | nil => simp [splitChunks]
  | cons c rest =>
    simp only [splitChunks]
    by_cases h : c = sep
    · simp [h]
    · simp only [h, if_false]
      cases splitChunks sep rest <;> simp

/-- Two chunks mean the separator occurs in the string. -/
theorem splitChunks_pair_mem (sep : Char) (l : List Char) (x y : PyStr)
    (h : splitChunks sep l = [x, y]) : sep ∈ l := by
  induction l generalizing x with
  | nil => simp [splitChunks] at h
  | cons c rest ih =>
    by_cases hc : c = sep
    · simp [hc]
    · simp only [splitChunks, hc, if_false] at h
      rcases hsc : splitChunks sep rest with _ | ⟨t, ts⟩
      · exact absurd hsc (splitChunks_ne_nil sep rest)
      · rw [hsc] at h
        simp only [List.cons.injEq] at h
        obtain ⟨hx, hts⟩ := h
        exact List.mem_cons_of_mem c (ih t (by rw [hsc, hts]))

/-- A `grab` call writes exactly one file when it succeeds and none
otherwise. -/
theorem grab_files_length (fe : Except Unit (List Node)) (v bc : PyStr) (c : Nat) :
    (grab fe v bc c).files.length = if (grab fe v bc c).ret.isSome then 1 else 0 := by
  unfold grab
  cases fe with
  | error e => simp
  | ok soup =>
    cases hp : parse_chapter_html soup bc v c with
    | error e => simp [hp]
    | ok data => by_cases hv : data.verses.isEmpty <;> simp [hp, hv]

/-- Counting saved files across grabs equals counting successful grabs. -/
theorem flatMap_files_count (l : List GrabOut)
    (h : ∀ g ∈ l, g.files.length = if g.ret.isSome then 1 else 0) :
    (l.flatMap (fun g => g.files)).length = (l.filter (fun g => g.ret.isSome)).length := by
  induction l with
  | nil => simp
  | cons g rest ih =>
    simp only [List.flatMap_cons, List.filter_cons, List.length_append]
    rw [h g (by simp), ih (fun g hg => h g (by simp [hg]))]
    by_cases hr : g.ret.isSome
    · simp [hr]
      omega
    · simp [hr]

/-- Appending a value to a missing key leaves an empty map empty. -/
theorem appendVal_nil (k x : PyStr) : appendVal k x [] = [] := rfl

/-- A non-marker step never populates an empty accumulator map. -/
theorem step_data_nil (st : TState) (n : Node) (hm : isMarkerNode n = false)
    (hd : st.data = []) : (stepNode st n).data = [] := by
  obtain ⟨d, scur, sflag⟩ := st
  simp only at hd
  subst hd
  cases n with
  | text s =>
    simp only [stepNode]
    cases scur with
    | none => rfl
    | some v =>
      by_cases hf : sflag = true ∧ pyStrip s = v
      · simp [hf]
      · simp [hf, appendVal_nil]
  | tag name classes children =>
    simp only [isMarkerNode] at hm
    simp only [stepNode]
    have hmk : markerNum name classes children = none :=
      Option.not_isSome_iff_eq_none.mp (by simp [hm])
    rw [hmk]
    dsimp only
    cases scur with
    | none => split_ifs <;> rfl
    | some v => split_ifs <;> simp [appendVal_nil]

/-- A marker-free traversal keeps the accumulator map empty. -/
theorem foldl_data_nil (nodes : List Node) (st : TState)
    (hm : ∀ n ∈ nodes, isMarkerNode n = false) (hd : st.data = []) :
    (nodes.foldl stepNode st).data = [] := by
  induction nodes generalizing st with
  | nil => exact hd
  | cons n rest ih =>
    simp only [List.foldl_cons]
    exact ih _ (fun x hx => hm x (by simp [hx])) (step_data_nil st n (hm n (by simp)) hd)

/-- `appendVal` does not change which keys are present. -/
theorem lookup_appendVal_isSome (k k' x : PyStr) (data : List (PyStr × List PyStr)) :
    (List.lookup k (appendVal k' x data)).isSome = (List.lookup k data).isSome := by
  induction data with
  | nil => rfl
  | cons p rest ih =>
    obtain ⟨pk, pv⟩ := p
    simp only [appendVal, List.map_cons]
    by_cases hpk : pk = k'
    · simp only [hpk, if_pos rfl]
      by_cases hk : k == k'
      · simp [List.lookup, hk]
      · simp only [List.lookup, hk]
        simpa [appendVal] using ih
    · simp only [if_neg (by simpa using hpk)]
      by_cases hk : k == pk
      · simp [List.lookup, hk]
      · simp only [List.lookup, hk]
        simpa [appendVal] using ih

/-- After `addKey k`, the key `k` is present. -/
theorem lookup_addKey_self (k : PyStr) (data : List (PyStr × List PyStr)) :
    (List.lookup k (addKey k data)).isSome = true := by
  unfold addKey
  cases hl : List.lookup k data with
  | some v => simp [hl]
  | none =>
    induction data with
    | nil => simp [List.lookup]
    | cons p rest ih =>
      obtain ⟨pk, pv⟩ := p
      by_cases hk : k == pk
      · simp [List.lookup, hk] at hl
      · simp only [List.lookup, hk] at hl
        simp only [List.cons_append, List.lookup, hk]
        exact ih hl

/-- Every traversal step preserves the key-presence invariant. -/
theorem step_inv (st : TState) (n : Node) (h : stateInv st) : stateInv (stepNode st n) := by
  obtain ⟨d, scur, flag⟩ := st
  cases n with
  | text s =>
    simp only [stepNode]
    cases scur with
    | none => exact h
    | some v =>
      dsimp only
      by_cases hf : flag = true ∧ pyStrip s = v
      · rw [if_pos hf]
        intro w hw
        exact h w hw
      · rw [if_neg hf]
        intro w hw
        simp only at hw
        rw [lookup_appendVal_isSome]
        exact h w hw
  | tag name classes children =>
    simp only [stepNode]
    cases hmk : markerNum name classes children with
    | some num =>
      dsimp only
      intro w hw
      simp only at hw
      rw [Option.some_inj] at hw
      subst hw
      exact lookup_addKey_self num d
    | none =>
      dsimp only
      cases scur with
      | none =>
        dsimp only
        split_ifs <;> intro w hw <;> simp at hw
      | some v =>
        dsimp only
        by_cases hbr : name = str "br"
        · rw [if_pos hbr]
          intro w hw
          simp only at hw
          rw [Option.some_inj] at hw
          subst hw
          dsimp only
          split_ifs with h3
          · rw [lookup_appendVal_isSome]
            exact h v rfl
          · exact h v rfl
        · rw [if_neg hbr]
          by_cases hsp : name = str "span" ∧ (getTextStrip children).isEmpty = true
          · rw [if_pos hsp]
            intro w hw
            simp only at hw
            rw [Option.some_inj] at hw
            subst hw
            exact h v rfl
          · rw [if_neg hsp]
            exact h

/-- The traversal invariant is preserved along any node list. -/
theorem foldl_inv (nodes : List Node) (st : TState) (h : stateInv st) :
    stateInv (nodes.foldl stepNode st) := by
  induction nodes generalizing st with
  | nil => exact h
  | cons n rest ih => exact ih _ (step_inv st n h)

/-- A successful parse's verses are the successfully formatted final
accumulator map. -/
theorem parse_ok_verses (soup : List Node) (bc v : PyStr) (ch : Nat) (rec : ChapterOut)
    (hok : parse_chapter_html soup bc v ch = .ok rec) :
    formatVerses (extractData soup) = .ok rec.verses := by
  cases hc : findContainerList soup with
  | none => unfold parse_chapter_html at hok; rw [hc] at hok; exact absurd hok (by simp)
  | some c =>
    unfold parse_chapter_html at hok
    rw [hc] at hok
    dsimp only at hok
    unfold extractData
    rw [hc]
    cases hf : formatVerses ((containerNodes c).foldl stepNode initState).data with
    | error e => rw [hf] at hok; exact absurd hok (by simp)
    | ok verses =>
      rw [hf] at hok
      simp only [Except.ok.injEq] at hok
      rw [← hok]

/-- `wsChunks` always yields at least one chunk. -/
theorem wsChunks_ne_nil (l : List Char) : wsChunks l ≠ [] := by
  cases l with
  | nil => simp [wsChunks]
  | cons c rest =>
    simp only [wsChunks]
    by_cases h : isWs c
    · simp [h]
    · simp only [h, Bool.false_eq_true, if_false]
      cases wsChunks rest <;> simp

/-- Characters inside whitespace-split chunks are never whitespace. -/
theorem wsChunks_chars (l : List Char) : ∀ t ∈ wsChunks l, ∀ c ∈ t, isWs c = false := by
  induction l with
  | nil =>
    intro t ht c hc
    simp [wsChunks] at ht
    subst ht
    simp at hc
  | cons a rest ih =>
    intro t ht c hc
    simp only [wsChunks] at ht
    by_cases h : isWs a
    · rw [if_pos h] at ht
      rcases List.mem_cons.mp ht with h1 | h1
      · subst h1; simp at hc
      · exact ih t h1 c hc
    · simp only [h, Bool.false_eq_true, if_false] at ht
      rcases hw : wsChunks rest with _ | ⟨t0, ts0⟩
      · exact absurd hw (wsChunks_ne_nil rest)
      · rw [hw] at ht
        rcases List.mem_cons.mp ht with h1 | h1
        · subst h1
          rcases List.mem_cons.mp hc with h2 | h2
          · subst h2; simpa using h
          · exact ih t0 (by rw [hw]; exact List.mem_cons_self t0 ts0) c h2
        · exact ih t (by rw [hw]; exact List.mem_cons_of_mem t0 h1) c hc

/-- Tokens of a Python `split()` are non-empty and whitespace-free. -/
theorem pySplitWs_tokens (l : List Char) :
    ∀ t ∈ pySplitWs l, t ≠ [] ∧ ∀ c ∈ t, isWs c = false := by
  intro t ht
  unfold pySplitWs at ht
  rw [List.mem_filter] at ht
  exact ⟨by simpa using ht.2, wsChunks_chars l t ht.1⟩

/-- The head of a space-join is the head of its first token. -/
theorem joinSp_head (t : PyStr) (ts : List PyStr) (hne : t ≠ []) :
    (joinSp (t :: ts)).head? = t.head? := by
  cases ts with
  | nil => rfl
  | cons t2 ts2 =>
    show (t ++ ' ' :: joinSp (t2 :: ts2)).head? = t.head?
    cases t with
    | nil => exact absurd rfl hne
    | cons c r => rfl

/-- Every character of a space-join of whitespace-free tokens is either the
separating space or a non-whitespace character. -/
theorem joinSp_chars (ts : List PyStr) (h : ∀ t ∈ ts, ∀ c ∈ t, isWs c = false) :
    ∀ c ∈ joinSp ts, c = ' ' ∨ isWs c = false := by
  induction ts with
  | nil => intro c hc; simp [joinSp] at hc
  | cons t rest ih =>
    intro c hc
    cases rest with
    | nil => exact Or.inr (h t (by simp) c hc)
    | cons t2 ts2 =>
      rw [show joinSp (t :: t2 :: ts2) = t ++ ' ' :: joinSp (t2 :: ts2) from rfl] at hc
      rcases List.mem_append.mp hc with h1 | h1
      · exact Or.inr (h t (by simp) c h1)
      · rcases List.mem_cons.mp h1 with h2 | h2
        · exact Or.inl h2
        · exact ih (fun u hu d hd => h u (List.mem_cons_of_mem t hu) d hd) c h2

/-- A string with no space character has no space run. -/
theorem hasSpaceRun_of_no_space (l : List Char) (h : ∀ c ∈ l, c ≠ ' ') :
    hasSpaceRun l = false := by
  induction l with
  | nil => rfl
  | cons a rest ih =>
    cases rest with
    | nil => rfl
    | cons b r =>
      simp only [hasSpaceRun, Bool.or_eq_false_iff, Bool.and_eq_false_iff, beq_eq_false_iff_ne]
      refine ⟨Or.inl (h a (by simp)), ?_⟩
      exact ih (fun c hc => h c (List.mem_cons_of_mem a hc))

/-- A space-free prefix neither creates nor hides a space run. -/
theorem hasSpaceRun_append (l1 l2 : List Char) (h : ∀ c ∈ l1, c ≠ ' ') :
    hasSpaceRun (l1 ++ l2) = hasSpaceRun l2 := by
  induction l1 with
  | nil => rfl
  | cons a rest ih =>
    have hrest : ∀ c ∈ rest, c ≠ ' ' := fun c hc => h c (List.mem_cons_of_mem a hc)
    have ha : a ≠ ' ' := h a (by simp)
    rw [List.cons_append]
    rcases hconc : rest ++ l2 with _ | ⟨b, r⟩
    · rw [(List.append_eq_nil.mp hconc).2]
      rfl
    · show ((a == ' ' && b == ' ') || hasSpaceRun (b :: r)) = hasSpaceRun l2
      have : (a == ' ') = false := by simpa using ha
      rw [this, Bool.false_and, Bool.false_or, ← hconc]
      exact ih hrest

/-- A non-whitespace character is not the space character. -/
theorem isWs_ne_space (c : Char) (h : isWs c = false) : c ≠ ' ' := by
  intro hc
  rw [hc] at h
  simp [isWs] at h

/-- The space-join of non-empty whitespace-free tokens has no run of two
adjacent spaces. -/
theorem joinSp_no_run (ts : List PyStr)
    (h : ∀ t ∈ ts, t ≠ [] ∧ ∀ c ∈ t, isWs c = false) :
    hasSpaceRun (joinSp ts) = false := by
  induction ts with
  | nil => rfl
  | cons t rest ih =>
    cases rest with
    | nil =>
      exact hasSpaceRun_of_no_space t (fun c hc => isWs_ne_space c ((h t (by simp)).2 c hc))
    | cons t2 ts2 =>
      show hasSpaceRun (t ++ ' ' :: joinSp (t2 :: ts2)) = false
      rw [hasSpaceRun_append t _ (fun c hc => isWs_ne_space c ((h t (by simp)).2 c hc))]
      rcases hj : joinSp (t2 :: ts2) with _ | ⟨c0, r0⟩
      · rfl
      · show ((' ' == ' ' && c0 == ' ') || hasSpaceRun (c0 :: r0)) = false
        have hh := joinSp_head t2 ts2 (h t2 (by simp)).1
        rw [hj] at hh
        have hc0 : c0 ∈ t2 := by
          cases t2 with
          | nil => simp at hh
          | cons d r => simp only [List.head?_cons] at hh; simp [← Option.some_inj.mp hh.symm]
        have : (c0 == ' ') = false := by
          simpa using isWs_ne_space c0 ((h t2 (by simp)).2 c0 hc0)
        rw [this, Bool.and_false, Bool.false_or, ← hj]
        exact ih (fun u hu => h u (List.mem_cons_of_mem t hu))

/-- The last character of a space-join of non-empty tokens comes from one of
the tokens. -/
theorem joinSp_getLast (ts : List PyStr) (h : ∀ t ∈ ts, t ≠ []) :
    ∀ c, (joinSp ts).getLast? = some c → ∃ t ∈ ts, c ∈ t := by
  induction ts with
  | nil => intro c hc; simp [joinSp] at hc
  | cons t rest ih =>
    cases rest with
    | nil =>
      intro c hc
      exact ⟨t, by simp, List.mem_of_mem_getLast? hc⟩
    | cons t2 ts2 =>
      intro c hc
      rw [show joinSp (t :: t2 :: ts2) = t ++ ' ' :: joinSp (t2 :: ts2) from rfl] at hc
      rw [List.getLast?_append_cons] at hc
      rcases hj : joinSp (t2 :: ts2) with _ | ⟨c0, r0⟩
      · have hh := joinSp_head t2 ts2 (h t2 (by simp))
        rw [hj] at hh
        cases t2 with
        | nil => exact absurd rfl (h [] (by simp))
        | cons d r => simp at hh
      · rw [hj, List.getLast?_cons_cons] at hc
        obtain ⟨u, hu, hcu⟩ := ih (fun u hu => h u (List.mem_cons_of_mem t hu)) c
          (by rw [hj]; exact hc)
        exact ⟨u, List.mem_cons_of_mem t hu, hcu⟩

/-- `strip()` is the identity on a string with no outer whitespace. -/
theorem pyStrip_eq_self (l : List Char)
    (hh : ∀ c, l.head? = some c → isWs c = false)
    (hl : ∀ c, l.getLast? = some c → isWs c = false) : pyStrip l = l := by
  unfold pyStrip
  have h1 : l.dropWhile isWs = l := by
    rw [List.dropWhile_eq_self_iff]
    intro hlen
    cases l with
    | nil => simp at hlen
    | cons a r =>
      have := hh a (by simp)
      simp [this]
  rw [h1]
  rw [List.rdropWhile_eq_self_iff]
  intro hne
  have := hl (l.getLast hne) (List.getLast?_eq_getLast l hne)
  simp [this]

/-- The normalization pipeline of the extractor output: no newline, no tab,
no adjacent double space, no outer whitespace. -/
theorem normalizeWs_props (raw : PyStr) :
    '\n' ∉ normalizeWs raw ∧ '\t' ∉ normalizeWs raw ∧
    hasSpaceRun (normalizeWs raw) = false ∧
    (∀ c, (normalizeWs raw).head? = some c → isWs c = false) ∧
    (∀ c, (normalizeWs raw).getLast? = some c → isWs c = false) := by
  have htok := pySplitWs_tokens (replaceCh '\t' ' ' (replaceCh '\n' ' ' raw))
  have hchars := joinSp_chars (pySplitWs (replaceCh '\t' ' ' (replaceCh '\n' ' ' raw)))
    (fun t ht => (htok t ht).2)
  have hhead : ∀ c, (joinSp (pySplitWs (replaceCh '\t' ' ' (replaceCh '\n' ' ' raw)))).head? =
      some c → isWs c = false := by
    intro c hc
    rcases hts : pySplitWs (replaceCh '\t' ' ' (replaceCh '\n' ' ' raw)) with _ | ⟨t, rest⟩
    · rw [hts] at hc; simp [joinSp] at hc
    · rw [hts, joinSp_head t rest (htok t (by rw [hts]; simp)).1] at hc
      refine (htok t (by rw [hts]; simp)).2 c ?_
      cases t with
      | nil => simp at hc
      | cons d r => simp only [List.head?_cons] at hc; simp [← Option.some_inj.mp hc]
  have hlast : ∀ c, (joinSp (pySplitWs (replaceCh '\t' ' ' (replaceCh '\n' ' ' raw)))).getLast? =
      some c → isWs c = false := by
    intro c hc
    obtain ⟨u, hu, hcu⟩ := joinSp_getLast _ (fun t ht => (htok t ht).1) c hc
    exact (htok u hu).2 c hcu
  have hstrip : normalizeWs raw =
      joinSp (pySplitWs (replaceCh '\t' ' ' (replaceCh '\n' ' ' raw))) := by
    unfold normalizeWs
    exact pyStrip_eq_self _ hhead hlast
  rw [hstrip]
  refine ⟨?_, ?_, joinSp_no_run _ htok, hhead, hlast⟩
  · intro hmem
    rcases hchars '\n' hmem with h1 | h1
    · exact absurd h1 (by decide)
    · exact absurd h1 (by simp [isWs])
  · intro hmem
    rcases hchars '\t' hmem with h1 | h1
    · exact absurd h1 (by decide)
    · exact absurd h1 (by simp [isWs])

/-- Every successfully formatted verse's normalizedText is the
normalization of some raw accumulated string. -/
theorem mem_formatVerses_readable (data : List (PyStr × List PyStr)) (vs : List Verse)
    (vr : Verse) (hok : formatVerses data = .ok vs) (h : vr ∈ vs) :
    ∃ raw, vr.readableText = normalizeWs raw := by
  unfold formatVerses at hok
  rcases data with _ | ⟨p, ps⟩
  · simp only [Except.ok.injEq] at hok
    rw [← hok] at h
    simp at h
  · cases hm : maxKeyInt (p :: ps) with
    | none => rw [hm] at hok; exact absurd hok (by simp)
    | some mx =>
      rw [hm] at hok
      simp only [Except.ok.injEq] at hok
      rw [← hok, List.mem_map] at h
      obtain ⟨i, _, hvr⟩ := h
      exact ⟨_, by rw [← hvr]⟩

/-- Characters of the digit class are never whitespace. -/
theorem isPyDigit_not_ws (c : Char) (h : isPyDigit c = true) : isWs c = false := by
  cases hw : isWs c with
  | false => rfl
  | true =>
    exfalso
    simp only [isWs, decide_eq_true_eq] at hw
    rcases hw with rfl | rfl | rfl | rfl | rfl | rfl <;> exact absurd h (by decide)

/-- `strip()` is the identity on a digit-class string. -/
theorem pyStrip_digits (l : PyStr) (h : ∀ c ∈ l, isPyDigit c = true) : pyStrip l = l :=
  pyStrip_eq_self l
    (fun c hc => isPyDigit_not_ws c (h c (List.mem_of_mem_head? hc)))
    (fun c hc => isPyDigit_not_ws c (h c (List.mem_of_mem_getLast? hc)))

/-- The digit loop of `int()` on a digit-class string: success forces every
character to be an ASCII decimal digit, and the value is the positional
accumulation. -/
theorem digitsLoop_pyDigits (l : List Char) :
    ∀ acc v : Nat, (∀ c ∈ l, isPyDigit c = true) → digitsLoop acc l = some v →
    l.all isDig = true ∧ v = l.foldl (fun a c => a * 10 + dVal c) acc := by
  induction l with
  | nil =>
    intro acc v _ h
    simp only [digitsLoop, Option.some.injEq] at h
    simp [h]
  | cons c rest ih =>
    intro acc v hl h
    have hc := hl c (by simp)
    have hcu : ¬ c = '_' := by
      intro hx; rw [hx] at hc; exact absurd hc (by decide)
    unfold digitsLoop at h
    rw [if_neg hcu] at h
    by_cases hd : isDig c = true
    · rw [if_pos hd] at h
      obtain ⟨hall, hv⟩ := ih _ v (fun x hx => hl x (by simp [hx])) h
      exact ⟨by simp [List.all_cons, hd, hall], by simpa using hv⟩
    · rw [if_neg hd] at h
      exact absurd h (by simp)

/-- The digit loop of `int()` succeeds on an all-decimal string. -/
theorem digitsLoop_decimal (l : List Char) :
    ∀ acc : Nat, l.all isDig = true →
    digitsLoop acc l = some (l.foldl (fun a c => a * 10 + dVal c) acc) := by
  induction l with
  | nil => intro acc _; rfl
  | cons c rest ih =>
    intro acc hall
    rw [List.all_cons, Bool.and_eq_true] at hall
    have hcu : ¬ c = '_' := by
      intro hx; rw [hx] at hall; exact absurd hall.1 (by decide)
    rw [digitsLoop.eq_def]
    dsimp only
    rw [if_neg hcu, if_pos hall.1, List.foldl_cons]
    exact ih _ hall.2

/-- `int()` on a key that passed `str.isdigit()`: success forces the key to
be all ASCII decimal digits and the result is its decimal value. -/
theorem pyInt_key_some (k : PyStr) (hk : pyIsdigit k = true) (v : Int)
    (h : pyInt k = some v) : k.all isDig = true ∧ v = (strToNat k : Int) := by
  have hk' := hk
  rw [pyIsdigit, Bool.and_eq_true] at hk'
  have hne : k ≠ [] := by
    intro hx; rw [hx] at hk; exact absurd hk (by decide)
  have hall : ∀ c ∈ k, isPyDigit c = true := fun c hc => List.all_eq_true.mp hk'.2 c hc
  have hstrip : pyStrip k = k := pyStrip_digits k hall
  obtain ⟨c, rest, rfl⟩ : ∃ c rest, k = c :: rest := by
    cases k with
    | nil => exact absurd rfl hne
    | cons c rest => exact ⟨c, rest, rfl⟩
  have hc := hall c (by simp)
  unfold pyInt at h
  rw [hstrip] at h
  split at h
  · rename_i r heq
    rw [List.cons.injEq] at heq
    rw [heq.1] at hc
    exact absurd hc (by decide)
  · rename_i r heq
    rw [List.cons.injEq] at heq
    rw [heq.1] at hc
    exact absurd hc (by decide)
  · simp only [pyIntNat] at h
    by_cases hd : isDig c = true
    · rw [if_pos hd] at h
      rw [Option.map_eq_some'] at h
      obtain ⟨n, hn, hv⟩ := h
      obtain ⟨hallr, hnval⟩ :=
        digitsLoop_pyDigits rest (dVal c) n (fun x hx => hall x (by simp [hx])) hn
      constructor
      · simp [List.all_cons, hd, hallr]
      · have hs : strToNat (c :: rest) = rest.foldl (fun a c => a * 10 + dVal c) (dVal c) := by
          simp [strToNat, List.foldl_cons]
        rw [← hv, hnval, hs]
        rfl
    · rw [if_neg hd] at h
      exact absurd h (by simp)

/-- `int()` succeeds on a non-empty all-decimal key with its decimal
value. -/
theorem pyInt_decimal (k : PyStr) (hne : k ≠ []) (hk : k.all isDig = true) :
    pyInt k = some ((strToNat k : Nat) : Int) := by
  have hall : ∀ c ∈ k, isPyDigit c = true := by
    intro c hc
    have := List.all_eq_true.mp hk c hc
    simp [isPyDigit, this]
  have hstrip : pyStrip k = k := pyStrip_digits k hall
  obtain ⟨c, rest, rfl⟩ : ∃ c rest, k = c :: rest := by
    cases k with
    | nil => exact absurd rfl hne
    | cons c rest => exact ⟨c, rest, rfl⟩
  have hd : isDig c = true := List.all_eq_true.mp hk c (by simp)
  have hrest : rest.all isDig = true := by
    rw [List.all_cons, Bool.and_eq_true] at hk
    exact hk.2
  unfold pyInt
  rw [hstrip]
  split
  · rename_i r heq
    rw [List.cons.injEq] at heq
    rw [heq.1] at hd
    exact absurd hd (by decide)
  · rename_i r heq
    rw [List.cons.injEq] at heq
    rw [heq.1] at hd
    exact absurd hd (by decide)
  · simp only [pyIntNat, if_pos hd]
    rw [digitsLoop_decimal rest (dVal c) hrest]
    have hs : strToNat (c :: rest) = rest.foldl (fun a c => a * 10 + dVal c) (dVal c) := by
      simp [strToNat, List.foldl_cons]
    rw [Option.map_some', hs]
    rfl

/-- The verse-marker test only produces keys that pass `str.isdigit()`. -/
theorem markerNum_isdigit (name : PyStr) (classes : List PyStr) (children : List Node)
    (num : PyStr) (h : markerNum name classes children = some num) :
    pyIsdigit num = true := by
  unfold markerNum at h
  split_ifs at h with h1 h2 h3
  · rw [Option.some.injEq] at h
    rw [← h]
    exact h2
  · rw [Option.some.injEq] at h
    rw [← h]
    decide

/-- Keys after `addKey`: an old key or the inserted one. -/
theorem mem_addKey (k : PyStr) (data : List (PyStr × List PyStr))
    (p : PyStr × List PyStr) (h : p ∈ addKey k data) : p ∈ data ∨ p.1 = k := by
  unfold addKey at h
  cases hl : List.lookup k data with
  | some w => rw [hl] at h; exact Or.inl h
  | none =>
    rw [hl] at h
    rcases List.mem_append.mp h with h1 | h1
    · exact Or.inl h1
    · right
      simp only [List.mem_singleton] at h1
      rw [h1]

/-- `appendVal` preserves the key set. -/
theorem mem_appendVal (k x : PyStr) (data : List (PyStr × List PyStr))
    (p : PyStr × List PyStr) (h : p ∈ appendVal k x data) :
    ∃ q ∈ data, q.1 = p.1 := by
  unfold appendVal at h
  rw [List.mem_map] at h
  obtain ⟨q, hq, hpq⟩ := h
  refine ⟨q, hq, ?_⟩
  by_cases hqk : q.1 = k
  · rw [if_pos hqk] at hpq
    rw [← hpq]
  · rw [if_neg hqk] at hpq
    rw [← hpq]

/-- One loop step only adds keys that pass `str.isdigit()`. -/
theorem step_keysDigit (st : TState) (n : Node)
    (h : ∀ p ∈ st.data, pyIsdigit p.1 = true) :
    ∀ p ∈ (stepNode st n).data, pyIsdigit p.1 = true := by
  obtain ⟨d, scur, flag⟩ := st
  intro p hp
  cases n with
  | tag name classes children =>
    dsimp only [stepNode] at hp
    cases hmk : markerNum name classes children with
    | some num =>
      rw [hmk] at hp
      dsimp only at hp
      rcases mem_addKey num d p hp with h1 | h1
      · exact h p h1
      · rw [h1]
        exact markerNum_isdigit _ _ _ _ hmk
    | none =>
      rw [hmk] at hp
      dsimp only at hp
      cases scur with
      | none =>
        dsimp only at hp
        split_ifs at hp <;> exact h p hp
      | some w =>
        dsimp only at hp
        split_ifs at hp with h1 h2 h3
        · obtain ⟨q, hq, hqp⟩ := mem_appendVal w (str "\n") d p hp
          rw [← hqp]
          exact h q hq
        · exact h p hp
        · exact h p hp
        · exact h p hp
  | text s =>
    dsimp only [stepNode] at hp
    cases scur with
    | none => exact h p hp
    | some w =>
      dsimp only at hp
      split_ifs at hp with h1 h2
      · exact h p hp
      · obtain ⟨q, hq, hqp⟩ := mem_appendVal w s d p hp
        rw [← hqp]
        exact h q hq
      · obtain ⟨q, hq, hqp⟩ := mem_appendVal w s d p hp
        rw [← hqp]
        exact h q hq

/-- Along the whole traversal, keys always pass `str.isdigit()`. -/
theorem foldl_keysDigit (nodes : List Node) :
    ∀ st : TState, (∀ p ∈ st.data, pyIsdigit p.1 = true) →
    ∀ p ∈ (nodes.foldl stepNode st).data, pyIsdigit p.1 = true := by
  induction nodes with
  | nil => intro st h; exact h
  | cons n rest ih =>
    intro st h
    exact ih _ (step_keysDigit st n h)

/-- Every key of the final accumulator map passes `str.isdigit()`. -/
theorem extractData_keysDigit (soup : List Node) :
    ∀ p ∈ extractData soup, pyIsdigit p.1 = true := by
  intro p hp
  unfold extractData at hp
  cases hc : findContainerList soup with
  | none => rw [hc] at hp; simp at hp
  | some c =>
    rw [hc] at hp
    exact foldl_keysDigit _ initState (fun q hq => by simp [initState] at hq) p hp

/-- The running-maximum fold of `max(map(int, keys))` over isdigit-passing
keys computes the natural maximum of the decimal values. -/
theorem maxKeyInt_go (rest : List (PyStr × List PyStr)) :
    ∀ an : Nat, ∀ mx : Int, (∀ q ∈ rest, pyIsdigit q.1 = true) →
    rest.foldlM (fun a q => (pyInt q.1).map (fun n => Max.max a n)) ((an : Nat) : Int) =
      some mx →
    mx = ((rest.foldl (fun a q => Nat.max a (strToNat q.1)) an : Nat) : Int) := by
  induction rest with
  | nil =>
    intro an mx _ h
    simp only [List.foldlM_nil] at h
    rw [← Option.some_inj.mp h]
    rfl
  | cons q rest ih =>
    intro an mx hkeys h
    rw [List.foldlM_cons] at h
    cases hq : pyInt q.1 with
    | none => rw [hq] at h; simp at h
    | some v =>
      rw [hq] at h
      obtain ⟨hall, hv⟩ := pyInt_key_some q.1 (hkeys q (by simp)) v hq
      have hmax : Max.max ((an : Nat) : Int) v = ((Nat.max an (strToNat q.1) : Nat) : Int) := by
        rw [hv, Nat.cast_max]
      simp only [Option.map_some', Option.some_bind] at h
      rw [hmax] at h
      rw [List.foldl_cons]
      exact ih _ mx (fun x hx => hkeys x (by simp [hx])) h

/-- When all accumulated keys pass `str.isdigit()` and `max(map(int, keys))`
succeeds, it computes the statement-level `maxKey`. -/
theorem maxKeyInt_eq_maxKey (data : List (PyStr × List PyStr))
    (hkeys : ∀ p ∈ data, pyIsdigit p.1 = true) (mx : Int)
    (h : maxKeyInt data = some mx) : mx = ((maxKey data : Nat) : Int) := by
  cases data with
  | nil => exact absurd h (by simp [maxKeyInt])
  | cons p rest =>
    unfold maxKeyInt at h
    dsimp only at h
    cases hp : pyInt p.1 with
    | none => rw [hp] at h; simp at h
    | some v =>
      rw [hp] at h
      obtain ⟨hall, hv⟩ := pyInt_key_some p.1 (hkeys p (by simp)) v hp
      rw [hv] at h
      have hgo := maxKeyInt_go rest (strToNat p.1) mx (fun x hx => hkeys x (by simp [hx])) h
      rw [hgo]
      unfold maxKey
      rw [List.foldl_cons]
      rw [Nat.max_eq_max, Nat.zero_max]

/-- The running-maximum fold succeeds when `int()` succeeds on every key. -/
theorem maxKeyInt_go_isSome (rest : List (PyStr × List PyStr)) :
    ∀ a : Int, (∀ q ∈ rest, (pyInt q.1).isSome = true) →
    (rest.foldlM (fun a q => (pyInt q.1).map (fun n => Max.max a n)) a).isSome = true := by
  induction rest with
  | nil => intro a _; rfl
  | cons q rest ih =>
    intro a hq
    rw [List.foldlM_cons]
    cases hqq : pyInt q.1 with
    | none =>
      have := hq q (by simp)
      rw [hqq] at this
      exact absurd this (by simp)
    | some v =>
      simp only [hqq, Option.map_some', Option.some_bind]
      exact ih _ (fun x hx => hq x (by simp [hx]))

/-- `max(map(int, keys))` succeeds when every key is a non-empty string of
ASCII decimal digits. -/
theorem maxKeyInt_isSome (data : List (PyStr × List PyStr)) (hne : data ≠ [])
    (hdec : ∀ p ∈ data, p.1 ≠ [] ∧ p.1.all isDig = true) :
    (maxKeyInt data).isSome = true := by
  cases data with
  | nil => exact absurd rfl hne
  | cons p rest =>
    unfold maxKeyInt
    dsimp only
    have hp := hdec p (by simp)
    rw [pyInt_decimal p.1 hp.1 hp.2]
    exact maxKeyInt_go_isSome rest ((strToNat p.1 : Nat) : Int) (fun q hq => by
      rw [pyInt_decimal q.1 (hdec q (by simp [hq])).1 (hdec q (by simp [hq])).2]
      rfl)

/-- `formatVerses` fails only with the `int()` ValueError message. -/
theorem formatVerses_error (data : List (PyStr × List PyStr)) (e : PyStr)
    (h : formatVerses data = .error e) :
    e = str "invalid literal for int() with base 10" := by
  cases data with
  | nil => exact absurd h (by simp [formatVerses])
  | cons p rest =>
    unfold formatVerses at h
    dsimp only at h
    cases hm : maxKeyInt (p :: rest) with
    | none =>
      rw [hm] at h
      simp only [Except.error.injEq] at h
      exact h.symm
    | some mx =>
      rw [hm] at h
      exact absurd h (by simp)

/-- Membership in an insertion. -/
theorem mem_insertSorted {α : Type} (lt : α → α → Bool) (l : List α) (a x : α) :
    x ∈ insertSorted lt l a ↔ x = a ∨ x ∈ l := by
  induction l with
  | nil => simp [insertSorted]
  | cons b rest ih =>
    simp only [insertSorted]
    by_cases h : lt a b
    · simp [h]
    · simp [h, ih]
      tauto

/-- Insertion is a permutation of consing. -/
theorem insertSorted_perm {α : Type} (lt : α → α → Bool) (l : List α) (a : α) :
    List.Perm (insertSorted lt l a) (a :: l) := by
  induction l with
  | nil => rfl
  | cons b rest ih =>
    simp only [insertSorted]
    by_cases h : lt a b
    · simp [h]
    · simp only [h, Bool.false_eq_true, if_false]
      exact (List.Perm.cons b ih).trans (List.Perm.swap a b rest)

/-- `pySort` permutes its input. -/
theorem pySort_perm {α : Type} (lt : α → α → Bool) (l : List α) :
    List.Perm (pySort lt l) l := by
  suffices h : ∀ acc : List α, List.Perm (l.foldl (insertSorted lt) acc) (acc ++ l) by
    simpa using h []
  induction l with
  | nil => intro acc; simp
  | cons a rest ih =>
    intro acc
    simp only [List.foldl_cons]
    refine (ih (insertSorted lt acc a)).trans ?_
    refine (List.Perm.append_right rest (insertSorted_perm lt acc a)).trans ?_
    exact List.perm_middle.symm

/-- Insertion preserves sortedness for an asymmetric, negatively transitive
comparison. -/
theorem insertSorted_pairwise {α : Type} (lt : α → α → Bool)
    (hasym : ∀ a b, lt a b = true → lt b a = false)
    (htrans : ∀ x y z, lt y x = false → lt z y = false → lt z x = false)
    (l : List α) (a : α) (hl : List.Pairwise (fun x y => lt y x = false) l) :
    List.Pairwise (fun x y => lt y x = false) (insertSorted lt l a) := by
  induction l with
  | nil =>
    show List.Pairwise _ [a]
    simp
  | cons b rest ih =>
    rcases List.pairwise_cons.mp hl with ⟨hb, hrest⟩
    simp only [insertSorted]
    by_cases h : lt a b
    · rw [if_pos h]
      refine List.pairwise_cons.mpr ⟨?_, hl⟩
      intro y hy
      rcases List.mem_cons.mp hy with rfl | hy2
      · exact hasym a y h
      · exact htrans a b y (hasym a b h) (hb y hy2)
    · simp only [h, Bool.false_eq_true, if_false]
      refine List.pairwise_cons.mpr ⟨?_, ih hrest⟩
      intro y hy
      rcases (mem_insertSorted lt rest a y).mp hy with rfl | hy2
      · simpa using h
      · exact hb y hy2

/-- `pySort` sorts with respect to the comparison's non-strict companion. -/
theorem pySort_pairwise {α : Type} (lt : α → α → Bool)
    (hasym : ∀ a b, lt a b = true → lt b a = false)
    (htrans : ∀ x y z, lt y x = false → lt z y = false → lt z x = false)
    (l : List α) :
    List.Pairwise (fun x y => lt y x = false) (pySort lt l) := by
  suffices h : ∀ acc : List α, List.Pairwise (fun x y => lt y x = false) acc →
      List.Pairwise (fun x y => lt y x = false) (l.foldl (insertSorted lt) acc) by
    exact h [] (by simp)
  induction l with
  | nil => intro acc hacc; simpa using hacc
  | cons a rest ih =>
    intro acc hacc
    simp only [List.foldl_cons]
    exact ih _ (insertSorted_pairwise lt hasym htrans acc a hacc)

/-- Characters with equal code points are equal. -/
theorem char_toNat_inj (a b : Char) (h : a.toNat = b.toNat) : a = b :=
  Char.ext (UInt32.ext h)

/-- Code-point comparison is asymmetric. -/
theorem strLt_asymm (a b : PyStr) (h : strLt a b = true) : strLt b a = false := by
  induction a generalizing b with
  | nil =>
    cases b with
    | nil => simp [strLt] at h
    | cons c r => rfl
  | cons x xs ih =>
    cases b with
    | nil => simp [strLt] at h
    | cons y ys =>
      simp only [strLt] at h ⊢
      by_cases h1 : x.toNat < y.toNat
      · rw [if_neg (by omega), if_pos h1]
      · rw [if_neg h1] at h
        by_cases h2 : y.toNat < x.toNat
        · rw [if_pos h2] at h
          exact absurd h (by simp)
        · rw [if_neg h2] at h
          rw [if_neg h2, if_neg h1]
          exact ih ys h

/-- Two strings neither of which precedes the other are equal. -/
theorem strLt_conn (a b : PyStr) (h1 : strLt a b = false) (h2 : strLt b a = false) :
    a = b := by
  induction a generalizing b with
  | nil =>
    cases b with
    | nil => rfl
    | cons c r => simp [strLt] at h1
  | cons x xs ih =>
    cases b with
    | nil => simp [strLt] at h2
    | cons y ys =>
      simp only [strLt] at h1 h2
      by_cases hxy : x.toNat < y.toNat
      · rw [if_pos hxy] at h1; exact absurd h1 (by simp)
      · by_cases hyx : y.toNat < x.toNat
        · rw [if_pos hyx] at h2; exact absurd h2 (by simp)
        · rw [if_neg hxy, if_neg hyx] at h1
          rw [if_neg hyx, if_neg hxy] at h2
          have hx : x = y := char_toNat_inj x y (by omega)
          rw [hx, ih ys h1 h2]

/-- The non-strict companion of code-point comparison is transitive. -/
theorem strLt_neg_trans (a b c : PyStr) (h1 : strLt b a = false) (h2 : strLt c b = false) :
    strLt c a = false := by
  induction a generalizing b c with
  | nil =>
    cases c with
    | nil => rfl
    | cons z zs => rfl
  | cons x xs ih =>
    cases c with
    | nil =>
      cases b with
      | nil => simp [strLt] at h1
      | cons y ys => simp [strLt] at h2
    | cons z zs =>
      cases b with
      | nil => simp [strLt] at h1
      | cons y ys =>
        simp only [strLt] at h1 h2 ⊢
        by_cases hyx : y.toNat < x.toNat
        · rw [if_pos hyx] at h1; exact absurd h1 (by simp)
        · rw [if_neg hyx] at h1
          by_cases hzy : z.toNat < y.toNat
          · rw [if_pos hzy] at h2; exact absurd h2 (by simp)
          · rw [if_neg hzy] at h2
            by_cases hxy : x.toNat < y.toNat
            · rw [if_neg (by omega), if_pos (by omega)]
            · by_cases hyz : y.toNat < z.toNat
              · rw [if_neg (by omega), if_pos (by omega)]
              · rw [if_neg hxy] at h1
                rw [if_neg hyz] at h2
                rw [if_neg (by omega), if_neg (by omega)]
                exact ih ys zs h1 h2

/-- Accumulator form of the digit-string fold. -/
theorem strToNat_go (l : List Char) (acc : Nat) :
    l.foldl (fun a c => a * 10 + dVal c) acc = acc * 10 ^ l.length + strToNat l := by
  induction l generalizing acc with
  | nil => simp [strToNat]
  | cons c r ih =>
    have hc : strToNat (c :: r) = dVal c * 10 ^ r.length + strToNat r := by
      show List.foldl _ _ (c :: r) = _
      rw [List.foldl_cons]
      rw [ih (0 * 10 + dVal c)]
      ring
    rw [List.foldl_cons, ih (acc * 10 + dVal c), hc]
    rw [List.length_cons]
    ring

/-- Positional expansion of the digit-string value. -/
theorem strToNat_cons (c : Char) (r : PyStr) :
    strToNat (c :: r) = dVal c * 10 ^ r.length + strToNat r := by
  show List.foldl _ _ (c :: r) = _
  rw [List.foldl_cons, strToNat_go]
  ring

/-- Code-point bounds of an ASCII digit. -/
theorem isDig_toNat (c : Char) (h : isDig c = true) : 48 ≤ c.toNat ∧ c.toNat ≤ 57 := by
  simp only [isDig, decide_eq_true_eq, Char.le_def] at h
  exact ⟨h.1, h.2⟩

/-- A digit string's value is bounded by the power of its width. -/
theorem strToNat_lt_pow (l : List Char) (h : l.all isDig = true) :
    strToNat l < 10 ^ l.length := by
  induction l with
  | nil => simp [strToNat]
  | cons c r ih =>
    simp only [List.all_cons, Bool.and_eq_true] at h
    have hd := isDig_toNat c h.1
    have hdv : dVal c ≤ 9 := by unfold dVal; omega
    have hr := ih h.2
    rw [strToNat_cons, List.length_cons]
    calc dVal c * 10 ^ r.length + strToNat r
        < dVal c * 10 ^ r.length + 10 ^ r.length := by omega
      _ = (dVal c + 1) * 10 ^ r.length := by ring
      _ ≤ 10 * 10 ^ r.length := by
          have : dVal c + 1 ≤ 10 := by omega
          exact Nat.mul_le_mul_right _ this
      _ = 10 ^ (r.length + 1) := by ring

/-- A shared prefix does not affect code-point comparison. -/
theorem strLt_append_same (p a b : PyStr) :
    strLt (p ++ a) (p ++ b) = strLt a b := by
  induction p with
  | nil => rfl
  | cons x ps ih =>
    show strLt (x :: (ps ++ a)) (x :: (ps ++ b)) = strLt a b
    simp only [strLt, lt_irrefl, if_false, if_neg]
    exact ih

/-- For equal-width distinct digit fields, lexicographic order of the full
strings is numeric order of the fields. -/
theorem strLt_digits_lt (d1 : PyStr) (d2 : PyStr) (x y : PyStr)
    (hlen : d1.length = d2.length) (h1 : d1.all isDig = true) (h2 : d2.all isDig = true)
    (hne : d1 ≠ d2) (hlt : strLt (d1 ++ x) (d2 ++ y) = true) :
    strToNat d1 < strToNat d2 := by
  induction d1 generalizing d2 with
  | nil =>
    cases d2 with
    | nil => exact absurd rfl hne
    | cons c2 r2 => simp at hlen
  | cons c1 r1 ih =>
    cases d2 with
    | nil => simp at hlen
    | cons c2 r2 =>
      simp only [List.length_cons, Nat.add_right_cancel_iff] at hlen
      simp only [List.all_cons, Bool.and_eq_true] at h1 h2
      have hd1 := isDig_toNat c1 h1.1
      have hd2 := isDig_toNat c2 h2.1
      rw [show (c1 :: r1) ++ x = c1 :: (r1 ++ x) from rfl,
          show (c2 :: r2) ++ y = c2 :: (r2 ++ y) from rfl] at hlt
      simp only [strLt] at hlt
      by_cases hc : c1.toNat < c2.toNat
      · have hv1 := strToNat_lt_pow r1 h1.2
        rw [strToNat_cons, strToNat_cons, hlen]
        have hdv : dVal c1 + 1 ≤ dVal c2 := by unfold dVal; omega
        calc dVal c1 * 10 ^ r2.length + strToNat r1
            < dVal c1 * 10 ^ r2.length + 10 ^ r2.length := by rw [← hlen]; omega
          _ = (dVal c1 + 1) * 10 ^ r2.length := by ring
          _ ≤ dVal c2 * 10 ^ r2.length := Nat.mul_le_mul_right _ hdv
          _ ≤ dVal c2 * 10 ^ r2.length + strToNat r2 := Nat.le_add_right _ _
      · rw [if_neg hc] at hlt
        by_cases hc2 : c2.toNat < c1.toNat
        · rw [if_pos hc2] at hlt
          exact absurd hlt (by simp)
        · rw [if_neg hc2] at hlt
          have hceq : c1 = c2 := char_toNat_inj c1 c2 (by omega)
          subst hceq
          have hrne : r1 ≠ r2 := by
            intro hr
            exact hne (by rw [hr])
          have := ih r2 hlen h1.2 h2.2 hrne hlt
          rw [strToNat_cons, strToNat_cons, hlen]
          omega

/-- A successful `processFile` step leaves the chapter list unchanged or
appends exactly one chapter carrying the filename-derived number. -/
theorem processFile_ok (abbr : PyStr) (chs chs' : List ChapterAgg) (jf : ChapFile)
    (h : processFile abbr chs jf = .ok chs') :
    chs' = chs ∨ ∃ n vs, chapFileNum abbr jf.name = some n ∧ vs ≠ [] ∧
      chs' = chs ++ [⟨n, vs⟩] := by
  unfold processFile at h
  cases hcn : chapFileNum abbr jf.name with
  | none =>
    rw [hcn] at h
    simp only [pure, Except.pure, Except.ok.injEq] at h
    exact Or.inl h.symm
  | some n =>
    rw [hcn] at h
    dsimp only at h
    cases hcont : jf.content with
    | none => rw [hcont] at h; exact absurd h (by simp [throw, throwThe, MonadExceptOf.throw])
    | some dataJ =>
      rw [hcont] at h
      dsimp only at h
      cases hm : (dataJ.verses.getD []).mapM buildVerse with
      | error e =>
        rw [hm] at h
        exact absurd h (by simp [Bind.bind, Except.bind])
      | ok vs =>
        rw [hm] at h
        simp only [Bind.bind, Except.bind] at h
        by_cases hv : vs.isEmpty
        · rw [if_pos hv] at h
          exact absurd h (by simp [throw, throwThe, MonadExceptOf.throw])
        · rw [if_neg hv] at h
          simp only [pure, Except.pure, Except.ok.injEq] at h
          exact Or.inr ⟨n, vs, rfl, by simpa using hv, h.symm⟩

/-- Folding `processFile` over files whose derived chapter numbers are
pairwise increasing yields a strictly increasing chapter list. -/
theorem foldlM_processFile_pairwise (abbr : PyStr) (files : List ChapFile)
    (acc res : List ChapterAgg)
    (h : List.foldlM (processFile abbr) acc files = .ok res)
    (HP : List.Pairwise (fun f g => ∀ n m, chapFileNum abbr f.name = some n →
        chapFileNum abbr g.name = some m → n < m) files)
    (hacc : List.Pairwise (fun c1 c2 => c1.number < c2.number) acc)
    (hcross : ∀ c ∈ acc, ∀ f ∈ files, ∀ m, chapFileNum abbr f.name = some m → c.number < m) :
    List.Pairwise (fun c1 c2 => c1.number < c2.number) res := by
  induction files generalizing acc with
  | nil =>
    simp only [List.foldlM_nil, pure, Except.pure, Except.ok.injEq] at h
    rw [← h]
    exact hacc
  | cons jf rest ih =>
    rw [List.foldlM_cons] at h
    cases hstep : processFile abbr acc jf with
    | error e => rw [hstep] at h; exact absurd h (by simp [Bind.bind, Except.bind])
    | ok acc2 =>
      rw [hstep] at h
      simp only [Bind.bind, Except.bind] at h
      rcases List.pairwise_cons.mp HP with ⟨hjf, hrest⟩
      rcases processFile_ok abbr acc acc2 jf hstep with heq | ⟨n, vs, hcn, hvs, heq⟩
      · subst heq
        exact ih acc2 h hrest hacc
          (fun c hc f hf m hm => hcross c hc f (List.mem_cons_of_mem jf hf) m hm)
      · subst heq
        refine ih _ h hrest ?_ ?_
        · rw [List.pairwise_append]
          refine ⟨hacc, by simp, ?_⟩
          intro c hc c2 hc2
          rw [List.mem_singleton] at hc2
          subst hc2
          exact hcross c hc jf (by simp) n hcn
        · intro c hc f hf m hm
          rcases List.mem_append.mp hc with hc1 | hc1
          · exact hcross c hc1 f (List.mem_cons_of_mem jf hf) m hm
          · rw [List.mem_singleton] at hc1
            subst hc1
            exact hjf f hf n m hcn hm

/-- `takeWhile isDig` of a digit field followed by a dot keeps exactly the
field. -/
theorem takeWhile_digits (d : PyStr) (r : List Char) (hd : d.all isDig = true) :
    (d ++ '.' :: r).takeWhile isDig = d := by
  induction d with
  | nil => simp [List.takeWhile, isDig]
  | cons c cs ih =>
    simp only [List.all_cons, Bool.and_eq_true] at hd
    simp only [List.cons_append, List.takeWhile_cons, hd.1, if_true, ih hd.2]

/-- `chapFileNum` on a canonical chapter file name yields the digit field's
value. -/
theorem chapFileNum_canonical (abbr d : PyStr) (hne : d ≠ []) (hd : d.all isDig = true) :
    chapFileNum abbr (abbr ++ '.' :: (d ++ str ".json")) = some (strToNat d) := by
  unfold chapFileNum
  have hform : abbr ++ '.' :: (d ++ str ".json") = (abbr ++ ['.']) ++ (d ++ str ".json") := by
    simp
  rw [hform]
  rw [if_pos (by
    rw [List.isPrefixOf_iff_prefix]
    exact List.prefix_append _ _)]
  rw [show abbr.length + 1 = (abbr ++ ['.']).length from by simp]
  rw [List.drop_left]
  dsimp only
  have hjson : d ++ str ".json" = d ++ '.' :: str "json" := rfl
  have hcond : (!(d : PyStr).isEmpty) = true ∧
      List.isPrefixOf (str ".json") (List.drop d.length (d ++ '.' :: str "json")) = true := by
    constructor
    · simpa using hne
    · rw [List.drop_left]
      decide
  rw [hjson, takeWhile_digits d _ hd, if_pos hcond]

/-- Canonical chapter file names pass the glob filter. -/
theorem globMatch_canonical (abbr d : PyStr) (hne : d ≠ []) :
    globMatch abbr (abbr ++ '.' :: (d ++ str ".json")) = true := by
  unfold globMatch
  have hform : abbr ++ '.' :: (d ++ str ".json") = (abbr ++ ['.']) ++ (d ++ str ".json") := by
    simp
  rw [hform]
  simp only [Bool.and_eq_true, decide_eq_true_eq]
  refine ⟨by simp, ?_, ?_⟩
  · rw [List.isSuffixOf_iff_suffix]
    have h2 : (abbr ++ ['.']) ++ (d ++ str ".json") = ((abbr ++ ['.']) ++ d) ++ str ".json" := by
      simp
    rw [h2]
    exact List.suffix_append _ _
  · have : d.length ≥ 1 := by
      cases d with
      | nil => exact absurd rfl hne
      | cons a r => simp
    simp [str]
    omega

/-- For a canonical folder, the sorted, filtered file list has pairwise
increasing derived chapter numbers. -/
theorem canon_files_pairwise (folder : BookFolder) (abbr : PyStr) (order : Nat)
    (hmatch : matchBookFolder folder.name = some (order, abbr))
    (hcanon : CanonFolder folder) :
    List.Pairwise (fun f g => ∀ n m, chapFileNum abbr f.name = some n →
        chapFileNum abbr g.name = some m → n < m)
      (pySort (fun a b => strLt a.name b.name)
        (folder.files.filter (fun f => globMatch abbr f.name))) := by
  obtain ⟨hforms, hnodup⟩ := hcanon
  rw [hmatch] at hforms
  have hasym : ∀ a b : ChapFile, strLt a.name b.name = true → strLt b.name a.name = false :=
    fun a b hab => strLt_asymm a.name b.name hab
  have htrans : ∀ x y z : ChapFile, strLt y.name x.name = false →
      strLt z.name y.name = false → strLt z.name x.name = false :=
    fun x y z h1 h2 => strLt_neg_trans x.name y.name z.name h1 h2
  have hsorted := pySort_pairwise (fun a b : ChapFile => strLt a.name b.name) hasym htrans
    (folder.files.filter (fun f => globMatch abbr f.name))
  have hperm := pySort_perm (fun a b : ChapFile => strLt a.name b.name)
    (folder.files.filter (fun f => globMatch abbr f.name))
  have hnodup2 : ((pySort (fun a b : ChapFile => strLt a.name b.name)
      (folder.files.filter (fun f => globMatch abbr f.name))).map
        (fun f => f.name)).Nodup := by
    refine ((hperm.map (fun f => f.name)).nodup_iff).mpr ?_
    exact List.Nodup.sublist
      (List.Sublist.map _ (List.filter_sublist folder.files)) hnodup
  have hpairne : List.Pairwise (fun f g : ChapFile => f.name ≠ g.name)
      (pySort (fun a b : ChapFile => strLt a.name b.name)
        (folder.files.filter (fun f => globMatch abbr f.name))) :=
    List.pairwise_map.mp hnodup2
  refine List.Pairwise.imp_of_mem ?_ (hsorted.and hpairne)
  intro f g hf hg hfg n m hn hm
  have hmemf : f ∈ folder.files :=
    List.mem_of_mem_filter (hperm.mem_iff.mp hf)
  have hmemg : g ∈ folder.files :=
    List.mem_of_mem_filter (hperm.mem_iff.mp hg)
  obtain ⟨d1, hname1, hlen1, hdig1⟩ := hforms f hmemf
  obtain ⟨d2, hname2, hlen2, hdig2⟩ := hforms g hmemg
  have hne1 : d1 ≠ [] := by intro hx; rw [hx] at hlen1; simp at hlen1
  have hne2 : d2 ≠ [] := by intro hx; rw [hx] at hlen2; simp at hlen2
  rw [hname1, chapFileNum_canonical abbr d1 hne1 hdig1, Option.some_inj] at hn
  rw [hname2, chapFileNum_canonical abbr d2 hne2 hdig2, Option.some_inj] at hm
  subst hn
  subst hm
  have hlt : strLt f.name g.name = true := by
    cases hflt : strLt f.name g.name with
    | true => rfl
    | false => exact absurd (strLt_conn f.name g.name hflt hfg.1) hfg.2
  rw [hname1, hname2] at hlt
  have hr1 : abbr ++ '.' :: (d1 ++ str ".json") = (abbr ++ ['.']) ++ (d1 ++ str ".json") := by
    simp
  have hr2 : abbr ++ '.' :: (d2 ++ str ".json") = (abbr ++ ['.']) ++ (d2 ++ str ".json") := by
    simp
  rw [hr1, hr2, strLt_append_same] at hlt
  have hdne : d1 ≠ d2 := by
    intro hx
    subst hx
    exact hfg.2 (by rw [hname1, hname2])
  exact strLt_digits_lt d1 d2 (str ".json") (str ".json")
    (by rw [hlen1, hlen2]) hdig1 hdig2 hdne hlt

/-- A successful `processFolder` step only adds books whose chapters are
strictly sorted, given a canonical folder. -/
theorem processFolder_ok_sorted (books books' : List BookAgg) (folder : BookFolder)
    (h : processFolder books folder = .ok books') (hcanon : CanonFolder folder) :
    ∀ b ∈ books', b ∈ books ∨ ChapsSorted b := by
  unfold processFolder at h
  by_cases hdir : !folder.isDir
  · rw [if_pos hdir] at h
    simp only [pure, Except.pure, Except.ok.injEq] at h
    intro b hb
    exact Or.inl (by rw [h]; exact hb)
  · rw [if_neg hdir] at h
    cases hbf : matchBookFolder folder.name with
    | none =>
      rw [hbf] at h
      dsimp only at h
      simp only [pure, Except.pure, Except.ok.injEq] at h
      intro b hb
      exact Or.inl (by rw [h]; exact hb)
    | some p =>
      obtain ⟨order, abbr⟩ := p
      rw [hbf] at h
      dsimp only at h
      cases hfold : List.foldlM (processFile abbr) []
          (pySort (fun a b => strLt a.name b.name)
            (folder.files.filter (fun f => globMatch abbr f.name))) with
      | error e =>
        rw [hfold] at h
        exact absurd h (by simp [Bind.bind, Except.bind])
      | ok chapters =>
        rw [hfold] at h
        simp only [Bind.bind, Except.bind] at h
        by_cases hemp : chapters.isEmpty
        · rw [if_pos hemp] at h
          exact absurd h (by simp [throw, throwThe, MonadExceptOf.throw])
        · rw [if_neg hemp] at h
          simp only [pure, Except.pure, Except.ok.injEq] at h
          intro b hb
          rw [← h] at hb
          rcases List.mem_append.mp hb with hb1 | hb1
          · exact Or.inl hb1
          · rw [List.mem_singleton] at hb1
            subst hb1
            refine Or.inr ?_
            unfold ChapsSorted
            exact foldlM_processFile_pairwise abbr _ [] chapters hfold
              (canon_files_pairwise folder abbr order hbf hcanon)
              (by simp) (by simp)

/-- Folding `processFolder` over canonical folders yields only books with
strictly sorted chapters. -/
theorem foldlM_processFolder_sorted (entries : List BookFolder) (acc res : List BookAgg)
    (h : List.foldlM processFolder acc entries = .ok res)
    (hcanon : ∀ folder ∈ entries, CanonFolder folder)
    (hacc : ∀ b ∈ acc, ChapsSorted b) :
    ∀ b ∈ res, ChapsSorted b := by
  induction entries generalizing acc with
  | nil =>
    simp only [List.foldlM_nil, pure, Except.pure, Except.ok.injEq] at h
    intro b hb
    exact hacc b (by rw [h]; exact hb)
  | cons folder rest ih =>
    rw [List.foldlM_cons] at h
    cases hstep : processFolder acc folder with
    | error e => rw [hstep] at h; exact absurd h (by simp [Bind.bind, Except.bind])
    | ok acc2 =>
      rw [hstep] at h
      simp only [Bind.bind, Except.bind] at h
      refine ih acc2 h (fun f hf => hcanon f (List.mem_cons_of_mem _ hf)) ?_
      intro b hb
      rcases processFolder_ok_sorted acc acc2 folder hstep (hcanon folder (by simp)) b hb with
        hmem | hs
      · exact hacc b hmem
      · exact hs

/-! ## Claim theorems -/

/-- C7: the Extractor fails with the container-missing `ValueError` (the
failure `grab` treats as "chapter does not exist") exactly when the
`passage-content` container is absent; when the container is present but
its cleaned descendant stream has no verse marker at all, the result is a
chapter record with zero verses, and `grab` then persists no file and
reports no success. -/
theorem C7_error_iff_container_absent (soup : List Node) (bc v : PyStr) (ch : Nat) :
    ((parse_chapter_html soup bc v ch = .error (str "passage-content not found")) ↔
      findContainerList soup = none) ∧
    (∀ rec, parse_chapter_html soup bc v ch = .ok rec → rec.verses = [] →
      grab (.ok soup) v bc ch = ⟨none, []⟩) ∧
    (∀ c, findContainerList soup = some c →
      (∀ n ∈ containerNodes c, isMarkerNode n = false) →
      ∃ rec, parse_chapter_html soup bc v ch = .ok rec ∧ rec.verses = []) := by
  refine ⟨?_, ?_, ?_⟩
  · cases hc : findContainerList soup with
    | none =>
      constructor
      · intro _; rfl
      · intro _
        unfold parse_chapter_html
        rw [hc]
    | some c =>
      unfold parse_chapter_html
      rw [hc]
      dsimp only
      constructor
      · intro hx
        cases hf : formatVerses ((containerNodes c).foldl stepNode initState).data with
        | error e =>
          rw [hf] at hx
          have he := formatVerses_error _ e hf
          rw [he] at hx
          simp only [Except.error.injEq] at hx
          exact absurd hx (by decide)
        | ok verses =>
          rw [hf] at hx
          exact absurd hx (by simp)
      · intro hx
        exact absurd hx (by simp)
  · intro rec hok hv
    simp only [grab]
    rw [hok]
    simp [hv]
  · intro c hc hnm
    have hdata : ((containerNodes c).foldl stepNode initState).data = [] :=
      foldl_data_nil _ _ hnm rfl
    refine ⟨{ book := pyUpper bc, rev := v, chapter := natStr ch, verses := [] }, ?_, rfl⟩
    unfold parse_chapter_html
    rw [hc]
    dsimp only
    rw [hdata]
    rfl

/-- C7 witness: a soup without the container makes the extractor fail with
the container-missing error, and a container holding no verse markers makes
`grab` skip persisting. -/
theorem C7_error_iff_container_absent_witness :
    parse_chapter_html soupNoContainer (str "gen") (str "NTV") 1 =
      .error (str "passage-content not found") ∧
    grab (.ok soupNoMarkers) (str "NTV") (str "gen") 1 = ⟨none, []⟩ := by
  constructor
  · exact (C7_error_iff_container_absent soupNoContainer (str "gen") (str "NTV") 1).1.mpr
      (by rfl)
  · obtain ⟨rec, hok, hempty⟩ :=
      (C7_error_iff_container_absent soupNoMarkers (str "gen") (str "NTV") 1).2.2
        (Node.tag (str "div") [str "passage-content"]
          [Node.tag (str "h3") [] [Node.text (str "Title")],
           Node.text (str "prelude text")]) (by rfl) (by decide)
    exact (C7_error_iff_container_absent soupNoMarkers (str "gen") (str "NTV") 1).2.1
      rec hok hempty

/-- C1: for every chapter markup whose traversal observed at least one verse
marker (a non-empty accumulator map), the emitted verse numbers are exactly
`1, 2, ..., max` in ascending order with no gaps, and every number in that
range with no accumulated content is emitted as a record with empty rawText
and empty normalizedText, never omitted. -/
theorem C1_verse_numbers_dense (soup : List Node) (bc v : PyStr) (ch : Nat)
    (rec : ChapterOut) (hok : parse_chapter_html soup bc v ch = .ok rec)
    (hne : extractData soup ≠ []) :
    rec.verses.map (fun vr => vr.verse) =
      (List.range' 1 (maxKey (extractData soup))).map natStr ∧
    ∀ i ∈ List.range' 1 (maxKey (extractData soup)),
      List.lookup (natStr i) (extractData soup) = none →
      Verse.mk (natStr i) [] [] ∈ rec.verses := by
  have hfmt := parse_ok_verses soup bc v ch rec hok
  have hkeys := extractData_keysDigit soup
  rcases hd : extractData soup with _ | ⟨p, ps⟩
  · exact absurd hd hne
  · rw [hd] at hfmt hkeys
    unfold formatVerses at hfmt
    dsimp only at hfmt
    cases hm : maxKeyInt (p :: ps) with
    | none => rw [hm] at hfmt; exact absurd hfmt (by simp)
    | some mx =>
      rw [hm] at hfmt
      simp only [Except.ok.injEq] at hfmt
      have hmx := maxKeyInt_eq_maxKey (p :: ps) hkeys mx hm
      have htn : mx.toNat = maxKey (p :: ps) := by rw [hmx]; exact Int.toNat_natCast _
      constructor
      · rw [← hfmt, htn]
        simp [List.map_map, Function.comp]
      · intro i hi hlook
        rw [← hfmt]
        refine List.mem_map.mpr ⟨i, ?_, ?_⟩
        · rw [htn]; exact hi
        · rw [hlook]
          rfl

/-- C1 witness: markup carrying markers 1 and 3 only yields the numbers
`1, 2, 3` in order, with the missing verse 2 emitted as an empty record. -/
theorem C1_verse_numbers_dense_witness :
    recGap.verses.map (fun vr => vr.verse) = [str "1", str "2", str "3"] ∧
    Verse.mk (str "2") [] [] ∈ recGap.verses := by
  have h := C1_verse_numbers_dense soupGap (str "gen") (str "NTV") 2 recGap (by rfl) (by decide)
  exact ⟨h.1.trans (by rfl), h.2 2 (by decide) (by rfl)⟩

/-- C9: for every chapter markup input and every verse record the extractor
produces, the normalizedText contains no newline, no tab, no run of two or
more consecutive spaces, and carries no leading or trailing whitespace. -/
theorem C9_normalized_no_whitespace_runs (soup : List Node) (bc v : PyStr) (ch : Nat)
    (rec : ChapterOut) (hok : parse_chapter_html soup bc v ch = .ok rec) :
    ∀ vr ∈ rec.verses, '\n' ∉ vr.readableText ∧ '\t' ∉ vr.readableText ∧
      hasSpaceRun vr.readableText = false ∧
      (∀ c, vr.readableText.head? = some c → isWs c = false) ∧
      (∀ c, vr.readableText.getLast? = some c → isWs c = false) := by
  intro vr hvr
  obtain ⟨raw, hraw⟩ :=
    mem_formatVerses_readable _ _ vr (parse_ok_verses soup bc v ch rec hok) hvr
  rw [hraw]
  exact normalizeWs_props raw

/-- C9 witness: the normalization properties at the concrete verse 3 of
`soupGap`, whose raw text carries leading whitespace and a newline. -/
theorem C9_normalized_no_whitespace_runs_witness :
    '\n' ∉ str "beta gamma" ∧ hasSpaceRun (str "beta gamma") = false ∧
    (∀ c, (str "beta gamma").getLast? = some c → isWs c = false) := by
  have h := C9_normalized_no_whitespace_runs soupGap (str "gen") (str "NTV") 2 recGap (by rfl)
    ⟨str "3", str "beta\ngamma", str "beta gamma"⟩ (by decide)
  exact ⟨h.1, h.2.2.1, h.2.2.2.2⟩

/-- C10: the claim says the single traversal completes without raising once
the container is present.  The key-presence half of that does hold (the
traversal invariant below), but the run as a whole can still raise with the
container present: a verse marker labelled with the non-decimal Unicode
digit `²` passes `str.isdigit()` and becomes a key, and
`max(map(int, verses_data.keys()))` in the formatting loop then raises
`ValueError` on it. -/
theorem C10_no_raise_counterexample :
    (findContainerList soupSuper).isSome = true ∧
    parse_chapter_html soupSuper (str "gen") (str "PDT") 1 =
      .error (str "invalid literal for int() with base 10") :=
  ⟨rfl, rfl⟩

/-- C10 amended: along every prefix of the cleaned descendant stream the
traversal invariant holds — whenever a current verse is active its number
is already a key of the accumulator map, so the `verses_data[...]` accesses
on line-break and text nodes cannot raise `KeyError` — and the extraction
as a whole returns normally (no `ValueError` from `int()` in the formatting
loop) whenever every accumulated key is a non-empty string of ASCII decimal
digits. -/
theorem C10_traversal_invariant_amended (soup : List Node) (bc v : PyStr) (ch : Nat)
    (c : Node) (hc : findContainerList soup = some c)
    (pre suf : List Node) (_hsplit : containerNodes c = pre ++ suf) :
    stateInv (pre.foldl stepNode initState) ∧
    ((∀ p ∈ extractData soup, p.1 ≠ [] ∧ p.1.all isDig = true) →
      ∃ rec, parse_chapter_html soup bc v ch = .ok rec) := by
  refine ⟨foldl_inv pre initState (fun w hw => by simp [initState] at hw), ?_⟩
  intro hdec
  have hok : ∃ vs, formatVerses (extractData soup) = .ok vs := by
    cases hd : extractData soup with
    | nil => exact ⟨[], by simp [formatVerses]⟩
    | cons p ps =>
      rw [hd] at hdec
      have hs := maxKeyInt_isSome (p :: ps) (by simp) hdec
      obtain ⟨mx, hm⟩ := Option.isSome_iff_exists.mp hs
      cases hf : formatVerses (p :: ps) with
      | error e =>
        exfalso
        unfold formatVerses at hf
        dsimp only at hf
        rw [hm] at hf
        dsimp only at hf
        exact absurd hf (by simp)
      | ok vs => exact ⟨vs, rfl⟩
  have hD : extractData soup = ((containerNodes c).foldl stepNode initState).data := by
    unfold extractData
    rw [hc]
  obtain ⟨vs, hvs⟩ := hok
  unfold parse_chapter_html
  rw [hc]
  dsimp only
  rw [← hD, hvs]
  exact ⟨_, rfl⟩

/-- C10 amended witness: the invariant at a concrete three-node traversal
prefix of `soupGap`'s container, and the concrete normal return for its
all-decimal keys. -/
theorem C10_traversal_invariant_amended_witness :
    stateInv (((containerNodes (Node.tag (str "div") [str "passage-content"]
      [Node.tag (str "sup") [str "versenum"] [Node.text (str "1")],
       Node.text (str "alpha"),
       Node.tag (str "sup") [str "versenum"] [Node.text (str "3")],
       Node.text (str "  beta\ngamma")])).take 3).foldl stepNode initState) ∧
    ∃ rec, parse_chapter_html soupGap (str "gen") (str "NTV") 2 = .ok rec := by
  have h := C10_traversal_invariant_amended soupGap (str "gen") (str "NTV") 2
    (Node.tag (str "div") [str "passage-content"]
      [Node.tag (str "sup") [str "versenum"] [Node.text (str "1")],
       Node.text (str "alpha"),
       Node.tag (str "sup") [str "versenum"] [Node.text (str "3")],
       Node.text (str "  beta\ngamma")]) (by rfl)
    ((containerNodes (Node.tag (str "div") [str "passage-content"]
      [Node.tag (str "sup") [str "versenum"] [Node.text (str "1")],
       Node.text (str "alpha"),
       Node.tag (str "sup") [str "versenum"] [Node.text (str "3")],
       Node.text (str "  beta\ngamma")])).take 3)
    ((containerNodes (Node.tag (str "div") [str "passage-content"]
      [Node.tag (str "sup") [str "versenum"] [Node.text (str "1")],
       Node.text (str "alpha"),
       Node.tag (str "sup") [str "versenum"] [Node.text (str "3")],
       Node.text (str "  beta\ngamma")])).drop 3)
    (by rw [List.take_append_drop])
  exact ⟨h.1, h.2 (by decide)⟩

/-- C2: the claim says the visible numeric label of a chapter-number marker
never appears in any verse's rawText or normalizedText, for chapter-number
markers of any chapter.  The code is wrong: the suppression flag compares
the label text against the *current verse number* (`"1"`), so for any
chapter other than 1 the chapter label leaks into verse 1's text.  At the
chapter-3 markup `soupChap3` the extractor emits verse 1 with rawText and
normalizedText `"3In the beginning"`, which contains (indeed starts with)
the marker's label `3`. -/
theorem C2_chapternum_label_leaks :
    parse_chapter_html soupChap3 (str "gen") (str "PDT") 3 =
      .ok ⟨str "GEN", str "PDT", str "3",
        [⟨str "1", str "3In the beginning", str "3In the beginning"⟩]⟩ := rfl

/-- C4: the claim says a chapter file with malformed JSON is reported and
skipped, every other file continuing to be processed.  The code is wrong:
`convert_bible.py` never imports `sys`, so the handler's
`print(..., file=sys.stderr)` raises `NameError`, aborting `parse_version`
for the entire version.  At a version directory holding one valid chapter
file (`gen.001.json`) and one malformed one (`gen.002.json`), the valid
file's contribution is lost with the rest of the version. -/
theorem C4_malformed_json_aborts_version :
    parse_version (str "PDT") [⟨str "01_gen", true, [fGood, fBad]⟩] =
      .error .nameError := rfl

/-- C5 counterexample: `download_book` does not return the count of chapters
successfully saved — its Python body has no `return` statement on the
successful path, so it returns `None` even when chapters were saved.  With
an oracle under which chapter 1 of Genesis fetches and parses successfully,
one file is saved yet the return value is `None` (not `some 1`). -/
theorem C5_returns_none_counterexample :
    (download_book fetchOne (str "PDT") (str "gen") (str "1")).returnValue = none ∧
    (download_book fetchOne (str "PDT") (str "gen") (str "1")).saved.length = 1 :=
  ⟨rfl, rfl⟩

/-- C5 (amended): `download_book` returns no value (`None`); it computes and
*reports* the per-book success count, and the reported count of successful
chapters equals the number of chapter files actually saved, out of the
resolved chapter list's length. -/
theorem C5_reports_saved_count (fetchOutcome : Nat → Except Unit (List Node))
    (version book_code chapters : PyStr) :
    (download_book fetchOutcome version book_code chapters).returnValue = none ∧
    (∀ s t, (download_book fetchOutcome version book_code chapters).reported = some (s, t) →
      s = (download_book fetchOutcome version book_code chapters).saved.length ∧
      ∃ max_chaps, List.lookup book_code CHAPS = some max_chaps ∧
        t = (parse_range chapters max_chaps).length) := by
  cases hl : List.lookup book_code CHAPS with
  | none => simp [download_book, hl]
  | some max_chaps =>
    by_cases he : (parse_range chapters max_chaps).isEmpty
    · simp [download_book, hl, he]
    · refine ⟨by simp [download_book, hl, he], ?_⟩
      intro s t hst
      simp only [download_book, hl, he, Bool.false_eq_true, if_false] at hst ⊢
      simp only [Option.some.injEq, Prod.mk.injEq] at hst
      refine ⟨?_, max_chaps, rfl, ?_⟩
      · rw [← hst.1]
        exact (flatMap_files_count _ (by
          intro g hg
          simp only [List.mem_map] at hg
          obtain ⟨c, hc, hgc⟩ := hg
          rw [← hgc]
          exact grab_files_length _ _ _ _)).symm
      · rw [← hst.2]
        simp

/-- C5 (amended) witness: at the concrete all-success oracle for Exodus
chapter spec `"2"`, the reported success count 1 equals the number of files
saved. -/
theorem C5_reports_saved_count_witness :
    (download_book fetchOne (str "NTV") (str "exo") (str "2")).returnValue = none ∧
    (1 : Nat) = (download_book fetchOne (str "NTV") (str "exo") (str "2")).saved.length := by
  refine ⟨(C5_reports_saved_count fetchOne (str "NTV") (str "exo") (str "2")).1, ?_⟩
  exact ((C5_reports_saved_count fetchOne (str "NTV") (str "exo") (str "2")).2 1 1 (by rfl)).1

/-- C6: `parse_range` on `"all"` in any letter case yields `[1 .. max]`;
every integer in any result lies in `[1, max]`; a range token `a-b` with
`a > b` contributes nothing; and `"1-3,5"` with `max = 4` resolves to
`[1, 2, 3]`. -/
theorem C6_parse_range_spec (arg : PyStr) (m : Nat) :
    (pyLower arg = str "all" → parse_range arg m = (List.range' 1 m).map Int.ofNat) ∧
    (∀ n ∈ parse_range arg m, 1 ≤ n ∧ n ≤ (m : Int)) ∧
    (∀ p x y a b, splitChunks '-' (pyStrip p) = [x, y] → pyInt x = some a →
      pyInt y = some b → b < a → processPart p = []) ∧
    parse_range (str "1-3,5") 4 = [1, 2, 3] := by
  refine ⟨?_, ?_, ?_, by rfl⟩
  · intro h; simp [parse_range, h]
  · intro n hn
    unfold parse_range at hn
    by_cases h : pyLower arg = str "all"
    · rw [if_pos h] at hn
      simp only [List.mem_map, List.mem_range'] at hn
      obtain ⟨i, ⟨hi1, hi2⟩, rfl⟩ := hn
      simp only [Int.ofNat_eq_coe]
      omega
    · rw [if_neg h] at hn
      rw [List.mem_filter] at hn
      have h2 := hn.2
      simp only [decide_eq_true_eq] at h2
      exact h2
  · intro p x y a b hsplit hx hy hab
    unfold processPart
    have hcont : (pyStrip p).contains '-' = true :=
      List.elem_eq_true_of_mem (splitChunks_pair_mem _ _ _ _ hsplit)
    have hne : (pyStrip p).isEmpty = false := by
      cases hstrip : pyStrip p with
      | nil => rw [hstrip] at hsplit; simp [splitChunks] at hsplit
      | cons c r => simp
    simp only [hne, Bool.false_eq_true, if_false, hcont, if_true, hsplit, hx, hy]
    rw [if_neg (by exact Int.not_le.mpr hab)]

/-- C6 witness: the three quantified parts of the `parse_range` theorem at
concrete inputs — `"ALL"` with max 3, membership of 2 in the `"1-3,5"`/4
result, and the inverted range token `" 5-2 "`. -/
theorem C6_parse_range_spec_witness :
    parse_range (str "ALL") 3 = [1, 2, 3] ∧
    (1 ≤ (2 : Int) ∧ (2 : Int) ≤ (4 : Nat)) ∧
    processPart (str " 5-2 ") = [] := by
  refine ⟨?_, ?_, ?_⟩
  · exact ((C6_parse_range_spec (str "ALL") 3).1 (by rfl)).trans (by rfl)
  · exact (C6_parse_range_spec (str "1-3,5") 4).2.1 2 (by decide)
  · exact (C6_parse_range_spec (str "x") 1).2.2.1 (str " 5-2 ") (str "5") (str "2") 5 2
      (by rfl) (by rfl) (by rfl) (by decide)

/-- C8 counterexample: the claim says the emitted verse text falls back to
the raw `text` field only when `readableText` is *absent*.  The code uses
`v.get("readableText") or v["text"]`, which also falls back when
`readableText` is present but empty: a chapter file whose verse carries
`readableText: ""` and `text: "hello"` yields verse text `"hello"`, while
the claim requires the (cleaned, empty) `readableText`. -/
theorem C8_empty_readable_counterexample :
    parse_version (str "PDT")
        [⟨str "01_gen", true, [⟨str "gen.001.json", some ⟨some [vEmptyReadable]⟩⟩]⟩] =
      .ok ⟨str "Bible PDT", ⟨str "parsedBible repo", str "PDT"⟩,
        [⟨1, str "Genesis", [⟨1, [⟨1, str "hello"⟩]⟩]⟩]⟩ ∧
    vEmptyReadable.readableText = some [] ∧ clean_text [] ≠ str "hello" :=
  ⟨rfl, rfl, by decide⟩

/-- C8 (amended): for every verse element successfully processed by the
aggregator's comprehension, the emitted text is the cleaned `readableText`
whenever that field is present *and non-empty*, and the cleaned raw `text`
when `readableText` is absent or empty. -/
theorem C8_readable_preferred (v : VerseObj) (r : VerseOut) (h : buildVerse v = .ok r) :
    (∀ s, v.readableText = some s → s ≠ [] → r.text = clean_text s) ∧
    ((v.readableText = none ∨ v.readableText = some []) →
      ∀ t, v.text = some t → r.text = clean_text t) := by
  unfold buildVerse at h
  constructor
  · intro s hs hne
    cases hv : v.verse with
    | none => simp only [hv] at h; exact absurd h (by simp)
    | some vs =>
      cases hpi : pyInt vs with
      | none => simp only [hv, hpi] at h; exact absurd h (by simp)
      | some n =>
        simp only [hv, hpi, hs, List.isEmpty_iff, if_neg hne, Except.ok.injEq] at h
        rw [← h]
  · rintro (hr | hr) t ht <;>
    · cases hv : v.verse with
      | none => simp only [hv] at h; exact absurd h (by simp)
      | some vs =>
        cases hpi : pyInt vs with
        | none => simp only [hv, hpi] at h; exact absurd h (by simp)
        | some n =>
          simp only [hv, hpi, hr, ht, List.isEmpty_iff, if_pos, Except.ok.injEq] at h
          rw [← h]

/-- C8 (amended) witness: a verse element with both fields non-empty emits
the cleaned `readableText`. -/
theorem C8_readable_preferred_witness :
    vBoth.readableText = some (str "nice") ∧ rBoth.text = clean_text (str "nice") := by
  refine ⟨rfl, ?_⟩
  exact (C8_readable_preferred vBoth rBoth (by rfl)).1 (str "nice") rfl (by decide)

/-- C3 counterexample: the claim says chapters are sorted strictly ascending
by the chapter number derived from each filename, for every on-disk layout.
The code iterates `sorted(glob(...))`, i.e. lexicographic filename order: a
book folder holding `gen.2.json` and `gen.10.json` yields the chapter
numbers `[10, 2]` — not ascending, since `"gen.10.json" < "gen.2.json"`
lexicographically. -/
theorem C3_filename_order_counterexample :
    (parse_version (str "PDT") entriesVarWidth).map
        (fun b => b.books.map (fun bk => bk.chapters.map (fun c => c.number))) =
      .ok [[10, 2]] ∧ ¬ (10 : Nat) < 2 :=
  ⟨rfl, by decide⟩

/-- C3 (amended): in every document `parse_version` produces, the books are
sorted ascending by canonical order (strictly so when the order numbers are
distinct), and chapters appear in ascending lexicographic filename order —
which is strictly ascending by derived chapter number whenever each book
folder's chapter files carry equal-width (three-digit, as the fetcher
writes) numeric fields with no repeated filename. -/
theorem C3_sorted_amended (vname : PyStr) (entries : List BookFolder) (bible : Bible)
    (hok : parse_version vname entries = .ok bible) :
    List.Pairwise (fun b1 b2 => b1.number ≤ b2.number) bible.books ∧
    ((bible.books.map (fun b => b.number)).Nodup →
      List.Pairwise (fun b1 b2 => b1.number < b2.number) bible.books) ∧
    ((∀ folder ∈ entries, CanonFolder folder) → ∀ b ∈ bible.books, ChapsSorted b) := by
  unfold parse_version at hok
  cases hfold : List.foldlM processFolder []
      (pySort (fun a b => strLt a.name b.name) entries) with
  | error e => rw [hfold] at hok; exact absurd hok (by simp [Bind.bind, Except.bind])
  | ok books0 =>
    rw [hfold] at hok
    simp only [Bind.bind, Except.bind, pure, Except.pure, Except.ok.injEq] at hok
    have hbooks : bible.books = pySort (fun a b => decide (a.number < b.number)) books0 := by
      rw [← hok]
    have hasym : ∀ a b : BookAgg, decide (a.number < b.number) = true →
        decide (b.number < a.number) = false := by
      intro a b hab
      simp only [decide_eq_true_eq] at hab
      simp only [decide_eq_false_iff_not]
      omega
    have htrans : ∀ x y z : BookAgg, decide (y.number < x.number) = false →
        decide (z.number < y.number) = false → decide (z.number < x.number) = false := by
      intro x y z h1 h2
      simp only [decide_eq_false_iff_not] at h1 h2 ⊢
      omega
    have hsorted := pySort_pairwise (fun a b : BookAgg => decide (a.number < b.number))
      hasym htrans books0
    rw [← hbooks] at hsorted
    have hle : List.Pairwise (fun b1 b2 : BookAgg => b1.number ≤ b2.number) bible.books := by
      refine hsorted.imp ?_
      intro a b hab
      simp only [decide_eq_false_iff_not] at hab
      omega
    refine ⟨hle, ?_, ?_⟩
    · intro hnodup
      have hne : List.Pairwise (fun b1 b2 : BookAgg => b1.number ≠ b2.number) bible.books :=
        List.pairwise_map.mp hnodup
      refine (hle.and hne).imp ?_
      intro a b hab
      omega
    · intro hcanon b hb
      have hmem : b ∈ books0 := by
        rw [hbooks] at hb
        exact (pySort_perm _ books0).mem_iff.mp hb
      refine foldlM_processFolder_sorted _ [] books0 hfold ?_ (by simp) b hmem
      intro folder hf
      exact hcanon folder ((pySort_perm _ entries).mem_iff.mp hf)

/-- C3 (amended) witness: at the canonical two-book layout (with its chapter
files listed out of order), the produced books are strictly sorted and each
book's chapters are strictly ascending. -/
theorem C3_sorted_amended_witness :
    List.Pairwise (fun b1 b2 => b1.number < b2.number) bibleCanon.books ∧
    ∀ b ∈ bibleCanon.books, ChapsSorted b := by
  have h := C3_sorted_amended (str "PDT") entriesCanon bibleCanon (by rfl)
  refine ⟨h.2.1 (by decide), h.2.2 ?_⟩
  intro folder hf
  simp only [entriesCanon, List.mem_cons, List.not_mem_nil, or_false] at hf
  rcases hf with rfl | rfl
  · refine ⟨?_, by decide⟩
    intro f hfm
    simp only [List.mem_cons, List.not_mem_nil, or_false] at hfm
    rcases hfm with rfl | rfl
    · exact ⟨str "002", by decide, by decide, by decide⟩
    · exact ⟨str "001", by decide, by decide, by decide⟩
  · refine ⟨?_, by decide⟩
    intro f hfm
    simp only [List.mem_cons, List.not_mem_nil, or_false] at hfm
    subst hfm
    exact ⟨str "001", by decide, by decide, by decide⟩

end ParsedBible
